import Mathlib

/-!
Verification of the Scratch-to-Tello schedule compiler
(`src/core/scratch_parser.py`, class `ScratchProjectParser`).

The Python code is shallowly embedded: JSON values (the content of
`project.json`) become the inductive type `J`; Python exceptions become
`Except PExn`; non-termination of the block-graph traversal becomes fuel
exhaustion (`TErr.fuelOut`); Python floats become `ℚ` (all constants in the
source are decimally exact).
-/

namespace Tello

unseal Rat.add Rat.sub Rat.mul Rat.inv

/-- A JSON value, as produced by `json.load` on `project.json`.  Object entries
are kept in document order; keys of a JSON object are strings. -/
inductive J where
  | null
  | bool (b : Bool)
  | num (q : ℚ)
  | str (s : String)
  | arr (elems : List J)
  | obj (entries : List (String × J))

/-- Python truthiness of a JSON value (`if not x`): `None`, `False`, `0`, `""`,
`[]` and `{}` are falsy, everything else is truthy. -/
def J.truthy : J → Bool
  | .null => false
  | .bool b => b
  | .num q => q != 0
  | .str s => s != ""
  | .arr l => !l.isEmpty
  | .obj l => !l.isEmpty

/-- `x == s` in Python for a string literal `s`: only strings can be equal to a
string. -/
def J.eqStr : J → String → Bool
  | .str t, s => t == s
  | _, _ => false

/-- The numeric value of a hashable Python value for key comparison
(`True == 1`, `False == 0`). -/
def keyNum : J → Option ℚ
  | .bool b => some (if b then 1 else 0)
  | .num q => some q
  | _ => none

/-- Python `==` between two hashable (scalar) values, as used for dict key
lookup.  Lists and dicts are unhashable and are rejected before this is
reached. -/
def keyEq (a b : J) : Bool :=
  match a, b with
  | .null, .null => true
  | .str s, .str t => s == t
  | _, _ =>
    match keyNum a, keyNum b with
    | some x, some y => x == y
    | _, _ => false

/-- Lookup in a string-keyed Python dict; with duplicate keys the last binding
wins (as in `json.load` and in dict construction). -/
def lookupLast (l : List (String × J)) (k : String) : Option J :=
  l.reverse.lookup k

/-- `d[k] = v` for a string-keyed dict: replace the first matching binding in
place, else append. -/
def updateS : List (String × J) → String → J → List (String × J)
  | [], k, v => [(k, v)]
  | (k', v') :: rest, k, v =>
    if k' == k then (k', v) :: rest else (k', v') :: updateS rest k v

/-- The Python exceptions the parser can raise. -/
inductive PExn where
  | typeErr
  | valueErr
  | keyErr
  | indexErr
  | attrErr
deriving DecidableEq

/-- Outcome tag of the embedded traversal: a Python exception, or fuel
exhaustion (modelling non-termination of the Python loop/recursion). -/
inductive TErr where
  | exn (e : PExn)
  | fuelOut
deriving DecidableEq

/-- Lift a computation that can only raise a Python exception into the
traversal's error monad. -/
def liftE : Except PExn α → Except TErr α
  | .ok a => .ok a
  | .error e => .error (.exn e)

/-- `except (ValueError, TypeError): return 0.0` around a numeric computation
(`float(...)` in the source); other exceptions propagate. -/
def catchTV : Except PExn ℚ → Except PExn ℚ
  | .error .typeErr => .ok 0
  | .error .valueErr => .ok 0
  | r => r

/-- Python attribute call `d.get(k)` for a string key `k`: `AttributeError`
unless `d` is a dict, else an optional value. -/
def getAttrOpt (d : J) (k : String) : Except PExn (Option J) :=
  match d with
  | .obj o => .ok (lookupLast o k)
  | _ => .error .attrErr

/-- Python `d.get(k, default)` for a string key. -/
def getAttrD (d : J) (k : String) (dflt : J) : Except PExn J := do
  let o ← getAttrOpt d k
  .ok (o.getD dflt)

/-- Python `d.get(k)` where the key is an arbitrary value: unhashable keys
(lists, dicts) raise `TypeError`; a hashable non-string key never matches the
string keys of a JSON object. -/
def dictGetJ (d : J) (k : J) : Except PExn (Option J) :=
  match d with
  | .obj o =>
    match k with
    | .arr _ => .error .typeErr
    | .obj _ => .error .typeErr
    | .str s => .ok (lookupLast o s)
    | _ => .ok none
  | _ => .error .attrErr

/-- Python subscript `v[i]` for a non-negative integer `i`. -/
def pyIndex (v : J) (i : Nat) : Except PExn J :=
  match v with
  | .arr l =>
    match l[i]? with
    | some x => .ok x
    | none => .error .indexErr
  | .str s =>
    match s.data[i]? with
    | some c => .ok (.str (String.mk [c]))
    | none => .error .indexErr
  | .obj _ => .error .keyErr
  | _ => .error .typeErr

/-- Python subscript `v[k]` for a string key `k`. -/
def pySubS (v : J) (k : String) : Except PExn J :=
  match v with
  | .obj o =>
    match lookupLast o k with
    | some x => .ok x
    | none => .error .keyErr
  | _ => .error .typeErr

/-- Python tuple unpacking `a, b = v` of an iterable of exactly two
elements. -/
def pyUnpack2 (v : J) : Except PExn (J × J) :=
  match v with
  | .arr [a, b] => .ok (a, b)
  | .arr _ => .error .valueErr
  | .str s =>
    match s.data with
    | [c1, c2] => .ok (.str (String.mk [c1]), .str (String.mk [c2]))
    | _ => .error .valueErr
  | .obj [(k1, _), (k2, _)] => .ok (.str k1, .str k2)
  | .obj _ => .error .valueErr
  | _ => .error .typeErr

/-- Python iteration `for x in v` (strings yield characters, dicts yield
keys). -/
def pyIter (v : J) : Except PExn (List J) :=
  match v with
  | .arr l => .ok l
  | .str s => .ok (s.data.map fun c => .str (String.mk [c]))
  | .obj o => .ok (o.map fun p => .str p.1)
  | _ => .error .typeErr

/-- Python `len(v)`. -/
def pyLen (v : J) : Except PExn Nat :=
  match v with
  | .arr l => .ok l.length
  | .str s => .ok s.length
  | .obj o => .ok o.length
  | _ => .error .typeErr

/-- Value of a list of decimal digit characters. -/
def digitsToNat (ds : List Char) : Nat :=
  ds.foldl (fun n c => 10 * n + (c.toNat - 48)) 0

/-- Model of Python `float(s)` on a decimal string: optional surrounding
spaces, optional sign, digits with an optional fractional part.  Exponents,
`inf`/`nan` and digit underscores do not occur in Scratch project data and are
treated as parse failures. -/
def strToNum (s : String) : Option ℚ :=
  let cs := s.data.dropWhile (· == ' ')
  let cs := (cs.reverse.dropWhile (· == ' ')).reverse
  let signed : ℚ × List Char :=
    match cs with
    | '-' :: rest => (-1, rest)
    | '+' :: rest => (1, rest)
    | _ => (1, cs)
  let sign := signed.1
  let cs := signed.2
  let intPart := cs.takeWhile Char.isDigit
  let rest := cs.dropWhile Char.isDigit
  match rest with
  | [] =>
    if intPart.isEmpty then none
    else some (sign * (digitsToNat intPart : ℚ))
  | '.' :: frac =>
    if frac.all Char.isDigit && !(intPart.isEmpty && frac.isEmpty) then
      some (sign * ((digitsToNat intPart : ℚ) +
        (digitsToNat frac : ℚ) / (10 : ℚ) ^ frac.length))
    else none
  | _ => none

/-- Python `float(x)`: numbers pass through, booleans become `0`/`1`, strings
are parsed (`ValueError` on failure), anything else raises `TypeError`. -/
def pyFloat (v : J) : Except PExn ℚ :=
  match v with
  | .num q => .ok q
  | .bool b => .ok (if b then 1 else 0)
  | .str s =>
    match strToNum s with
    | some q => .ok q
    | none => .error .valueErr
  | _ => .error .typeErr

/-- Python `int(q)` on a float: truncation toward zero. -/
def pyInt (q : ℚ) : ℤ :=
  if 0 ≤ q then ⌊q⌋ else ⌈q⌉

/-- Python `round(q)`: round half to even. -/
def pyRound (q : ℚ) : ℤ :=
  let f := ⌊q⌋
  let r := q - (f : ℚ)
  if r < 1 / 2 then f
  else if 1 / 2 < r then f + 1
  else if f % 2 = 0 then f else f + 1

/-- Python `x == n` for a numeric literal `n` (`True == 1`, `False == 0`). -/
def pyEqNum (v : J) (n : ℚ) : Bool :=
  match v with
  | .num q => q == n
  | .bool b => (if b then (1 : ℚ) else 0) == n
  | _ => false

/-- Truthiness of a `dict.get` result (`None` for a missing key is falsy). -/
def optTruthy (o : Option J) : Bool :=
  (o.getD .null).truthy

/-- The opening-brace character, written by code point to keep string literals
plain. -/
def lbraceChar : Char := Char.ofNat 123

/-- The closing-brace character. -/
def rbraceChar : Char := Char.ofNat 125

/-- Skip JSON whitespace. -/
def jskipWs (cs : List Char) : List Char :=
  cs.dropWhile fun c => c == ' ' || c == '\n' || c == '\t' || c == '\r'

/-- Parse the remainder of a JSON string literal (the opening quote already
consumed).  Supports the simple escapes; `\u` escapes do not occur in Scratch
mutation metadata. -/
def jparseStrAux : List Char → List Char → Except PExn (String × List Char)
  | [], _ => .error .valueErr
  | '"' :: rest, acc => .ok (String.mk acc.reverse, rest)
  | '\\' :: c :: rest, acc =>
    if c == '"' then jparseStrAux rest ('"' :: acc)
    else if c == '\\' then jparseStrAux rest ('\\' :: acc)
    else if c == '/' then jparseStrAux rest ('/' :: acc)
    else if c == 'n' then jparseStrAux rest ('\n' :: acc)
    else if c == 't' then jparseStrAux rest ('\t' :: acc)
    else if c == 'r' then jparseStrAux rest ('\r' :: acc)
    else .error .valueErr
  | '\\' :: [], _ => .error .valueErr
  | c :: rest, acc => jparseStrAux rest (c :: acc)
termination_by cs _ => cs.length
decreasing_by all_goals (simp; try omega)

/-- Parse a JSON number (integer part with optional fraction; exponents do not
occur in Scratch mutation metadata). -/
def jparseNum (cs : List Char) : Except PExn (ℚ × List Char) :=
  let signed : ℚ × List Char :=
    match cs with
    | '-' :: rest => (-1, rest)
    | _ => (1, cs)
  let sign := signed.1
  let cs1 := signed.2
  let ip := cs1.takeWhile Char.isDigit
  let cs2 := cs1.dropWhile Char.isDigit
  if ip.isEmpty then .error .valueErr
  else
    match cs2 with
    | '.' :: r =>
      let frac := r.takeWhile Char.isDigit
      if frac.isEmpty then .error .valueErr
      else
        .ok (sign * ((digitsToNat ip : ℚ) +
          (digitsToNat frac : ℚ) / (10 : ℚ) ^ frac.length),
          r.dropWhile Char.isDigit)
    | _ => .ok (sign * (digitsToNat ip : ℚ), cs2)

mutual

/-- Parse one JSON value.  The fuel only bounds recursion depth across
list/object structure; `jsonLoads` supplies enough for any input it accepts. -/
def jparseVal : Nat → List Char → Except PExn (J × List Char)
  | 0, _ => .error .valueErr
  | Nat.succ fuel, cs =>
    let cs1 := jskipWs cs
    if cs1.take 4 == ['n', 'u', 'l', 'l'] then .ok (.null, cs1.drop 4)
    else if cs1.take 4 == ['t', 'r', 'u', 'e'] then .ok (.bool true, cs1.drop 4)
    else if cs1.take 5 == ['f', 'a', 'l', 's', 'e'] then
      .ok (.bool false, cs1.drop 5)
    else
      match cs1 with
      | '"' :: r => do
        let (s, r') ← jparseStrAux r []
        .ok (.str s, r')
      | '[' :: r => jparseArrTail fuel r []
      | c :: r =>
        if c == lbraceChar then jparseObjTail fuel r []
        else do
          let (q, r') ← jparseNum (c :: r)
          .ok (.num q, r')
      | [] => .error .valueErr

/-- Parse the elements of a JSON array after `[` (or after a comma), given the
reversed accumulated prefix. -/
def jparseArrTail : Nat → List Char → List J → Except PExn (J × List Char)
  | 0, _, _ => .error .valueErr
  | Nat.succ fuel, cs, acc =>
    let cs1 := jskipWs cs
    match cs1 with
    | ']' :: r =>
      if acc.isEmpty then .ok (.arr [], r) else .error .valueErr
    | _ => do
      let (v, r) ← jparseVal fuel cs1
      let r1 := jskipWs r
      match r1 with
      | ',' :: r2 => jparseArrTail fuel r2 (v :: acc)
      | ']' :: r2 => .ok (.arr (v :: acc).reverse, r2)
      | _ => .error .valueErr

/-- Parse the entries of a JSON object after the opening brace (or after a
comma), given the reversed accumulated prefix. -/
def jparseObjTail : Nat → List Char → List (String × J) →
    Except PExn (J × List Char)
  | 0, _, _ => .error .valueErr
  | Nat.succ fuel, cs, acc =>
    let cs1 := jskipWs cs
    match cs1 with
    | c :: r =>
      if c == rbraceChar then
        if acc.isEmpty then .ok (.obj [], r) else .error .valueErr
      else if c == '"' then do
        let (k, r1) ← jparseStrAux r []
        match jskipWs r1 with
        | ':' :: r2 => do
          let (v, r3) ← jparseVal fuel r2
          match jskipWs r3 with
          | ',' :: r4 => jparseObjTail fuel r4 ((k, v) :: acc)
          | c' :: r4 =>
            if c' == rbraceChar then .ok (.obj ((k, v) :: acc).reverse, r4)
            else .error .valueErr
          | [] => .error .valueErr
        | _ => .error .valueErr
      else .error .valueErr
    | [] => .error .valueErr

end

/-- Model of Python `json.loads`: `TypeError` on a non-string argument,
`ValueError` on malformed JSON, else the parsed value.  The fuel passed to the
recursive-descent parser is generous enough for any input whose nesting it
accepts. -/
def jsonLoads (v : J) : Except PExn J :=
  match v with
  | .str s => do
    let (val, rest) ← jparseVal (2 * s.length + 4) s.data
    if (jskipWs rest).isEmpty then .ok val else .error .valueErr
  | _ => .error .typeErr

/-! ## Constants of `ScratchProjectParser.__init__` -/

def TAKEOFF_DURATION : ℚ := 8

def MIN_TELLO_MOVE : ℤ := 20

def SCRATCH_TO_CM_RATE : ℚ := 1

def INITIAL_HOVER_HEIGHT_CM : ℚ := 80

def TELLO_HORIZONTAL_SPEED_CMS : ℚ := 50

def TELLO_VERTICAL_SPEED_CMS : ℚ := 40

def MOVE_TIME_OVERHEAD : ℚ := 3 / 4

def MINIMUM_MOVE_TIME : ℚ := 3 / 2

/-! ## Data model of the interpreter -/

/-- A device command dict `{'target': ..., 'command': ...}` as built during
traversal (before the synthesizer stamps `time` and `type` onto it). -/
structure Cmd where
  target : J
  command : String

/-- An action dict as appended to `local_action_sequence`. -/
structure Action where
  duration : ℚ
  commands : List Cmd
  is_wait : Bool
  sprite_name : J

/-- One entry of the procedure table built by
`_find_procedure_definitions_for_target`.  `argIds` and `argNames` keep the
raw `json.loads` results (`arg_ids` is stored but never read by the
traversal). -/
structure ProcDef where
  startBlockId : J
  argIds : J
  argNames : J

/-- Update a Python dict with arbitrary hashable keys, keeping the original
key object and position on overwrite. -/
def updateQ : List (J × ℚ) → J → ℚ → List (J × ℚ)
  | [], k, v => [(k, v)]
  | (k', v') :: rest, k, v =>
    if keyEq k' k then (k', v) :: rest else (k', v') :: updateQ rest k v

/-- Python `d[k] = v` for a numeric-valued dict: unhashable keys raise
`TypeError`. -/
def dictSetQ (m : List (J × ℚ)) (k : J) (v : ℚ) : Except PExn (List (J × ℚ)) :=
  match k with
  | .arr _ => .error .typeErr
  | .obj _ => .error .typeErr
  | _ => .ok (updateQ m k v)

/-- Python `d.get(k, dflt)` for a numeric-valued dict with arbitrary keys. -/
def mapGet (m : List (J × ℚ)) (k : J) (dflt : ℚ) : Except PExn ℚ :=
  match k with
  | .arr _ => .error .typeErr
  | .obj _ => .error .typeErr
  | _ =>
    match m.find? fun p => keyEq p.1 k with
    | some p => .ok p.2
    | none => .ok dflt

/-- `proccode in procedures` / `procedures[proccode]` combined: `TypeError` for
an unhashable key, else the entry if present. -/
def procLookup (procs : List (J × ProcDef)) (k : J) :
    Except PExn (Option ProcDef) :=
  match k with
  | .arr _ => .error .typeErr
  | .obj _ => .error .typeErr
  | _ => .ok ((procs.find? fun p => keyEq p.1 k).map (·.2))

/-- `procedures[proccode] = {...}` (overwrite keeps position). -/
def updateProc : List (J × ProcDef) → J → ProcDef → List (J × ProcDef)
  | [], k, v => [(k, v)]
  | (k', v') :: rest, k, v =>
    if keyEq k' k then (k', v) :: rest else (k', v') :: updateProc rest k v

/-- `procedures[proccode] = {...}` with the hashability check of a Python dict
assignment. -/
def dictSetProc (m : List (J × ProcDef)) (k : J) (v : ProcDef) :
    Except PExn (List (J × ProcDef)) :=
  match k with
  | .arr _ => .error .typeErr
  | .obj _ => .error .typeErr
  | _ => .ok (updateProc m k v)

/-- `all_blocks.get(current_block_id)`: the block table has string keys; an
unhashable id raises `TypeError`, any other non-string id misses. -/
def lookupBlockId (bl : List (String × J)) (k : J) : Except PExn (Option J) :=
  match k with
  | .arr _ => .error .typeErr
  | .obj _ => .error .typeErr
  | .str s => .ok (lookupLast bl s)
  | _ => .ok none

/-! ## `_get_input_value` and `_get_broadcast_message` -/

/-- Shallow embedding of `ScratchProjectParser._get_input_value`
(scratch_parser.py lines 23-48).  `blockInput` is `inputs.get(name)`; the
result is the resolved numeric value, with all numeric-resolution failures
defaulting to `0.0` and structural subscript failures raising. -/
def getInputValue (blockInput : Option J) (blocks : List (String × J))
    (variableState : List (J × ℚ)) (customBlockArgs : List (J × ℚ)) :
    Except PExn ℚ :=
  match blockInput with
  | none => .ok 0
  | some bi =>
    if !bi.truthy then .ok 0
    else do
      let it ← pyIndex bi 0
      let iv ← pyIndex bi 1
      if pyEqNum it 1 || pyEqNum it 2 then
        match iv with
        | .arr _ => catchTV (do pyFloat (← pyIndex iv 1))
        | .str s =>
          match lookupLast blocks s with
          | some (J.obj ro) =>
            let opcode := (lookupLast ro "opcode").getD (.str "")
            if opcode.eqStr "argument_reporter_string_number" then do
              let fs ← pySubS (J.obj ro) "fields"
              let vl ← pySubS fs "VALUE"
              let argName ← pyIndex vl 0
              mapGet customBlockArgs argName 0
            else if opcode.eqStr "math_number" then
              catchTV (do
                let fs ← pySubS (J.obj ro) "fields"
                let nm ← pySubS fs "NUM"
                pyFloat (← pyIndex nm 0))
            else .ok 0
          | _ => .ok 0
        | _ => .ok 0
      else if pyEqNum it 3 then
        match iv with
        | .arr _ => do
          let h ← pyIndex iv 0
          if pyEqNum h 12 then do
            let varId ← pyIndex iv 2
            mapGet variableState varId 0
          else .ok 0
        | _ => .ok 0
      else .ok 0

/-- Shallow embedding of `ScratchProjectParser._get_broadcast_message`
(lines 50-56).  Returns the raw `BROADCAST_OPTION` field value (a `J`); the
caller lower-cases it, which raises `AttributeError` on a non-string. -/
def getBroadcastMessage (blockInput : Option J) (blocks : List (String × J)) :
    Except PExn J :=
  match blockInput with
  | none => .ok (.str "")
  | some bi =>
    if !bi.truthy then .ok (.str "")
    else do
      let b0 ← pyIndex bi 0
      if pyEqNum b0 1 then do
        let b1 ← pyIndex bi 1
        match b1 with
        | .str s =>
          match lookupLast blocks s with
          | some (J.obj ro) =>
            if ((lookupLast ro "opcode").getD .null).eqStr
                "event_broadcast_menu" then do
              let fs ← pySubS (J.obj ro) "fields"
              let bo ← pySubS fs "BROADCAST_OPTION"
              pyIndex bo 0
            else .ok (.str "")
          | _ => .ok (.str "")
        | _ => .ok (.str "")
      else .ok (.str "")

/-- Python `message.split()`: split on whitespace runs, dropping empties. -/
def pySplitWs (s : String) : List String :=
  (s.split Char.isWhitespace).filter (· != "")

/-! ## Command construction (`_calculate_realistic_duration`,
`_pos_to_command`, `_height_to_command`) -/

/-- `_calculate_realistic_duration` (lines 244-247): floor-plus-overhead
duration model. -/
def calculateRealisticDuration (distance : ℚ) (speed : ℚ) : ℚ :=
  if distance == 0 then 0
  else max (distance / speed + MOVE_TIME_OVERHEAD) MINIMUM_MOVE_TIME

/-- `_pos_to_command` (lines 249-252).  Both the horizontal (`'h'`,
right/left) and the depth (`'v'`, forward/back) axis use
`TELLO_HORIZONTAL_SPEED_CMS`.  The third component is the warnings list the
source returns — always empty. -/
def posToCommand (name : J) (distance : ℤ) (directionType : Char) :
    Cmd × ℚ × List String :=
  if directionType == 'h' then
    (⟨name, (if 0 < distance then "right " else "left ") ++
        toString distance.natAbs⟩,
      calculateRealisticDuration (distance.natAbs : ℚ)
        TELLO_HORIZONTAL_SPEED_CMS, [])
  else
    (⟨name, (if 0 < distance then "forward " else "back ") ++
        toString distance.natAbs⟩,
      calculateRealisticDuration (distance.natAbs : ℚ)
        TELLO_HORIZONTAL_SPEED_CMS, [])

/-- `_height_to_command` (lines 254-256): the vertical axis uses
`TELLO_VERTICAL_SPEED_CMS`. -/
def heightToCommand (name : J) (distance : ℤ) : Cmd × ℚ × List String :=
  (⟨name, (if 0 < distance then "up " else "down ") ++
      toString distance.natAbs⟩,
    calculateRealisticDuration (distance.natAbs : ℚ)
      TELLO_VERTICAL_SPEED_CMS, [])

/-- The actions appended by the `motion_gotoxy`/`motion_movesteps` handler
(lines 146-149): per axis, a single command when the integer delta reaches
`MIN_TELLO_MOVE`, nothing otherwise; no warnings are recorded. -/
def planarMoveActions (sn : J) (px py newX newY : ℚ) : List Action :=
  let dx := pyInt ((newX - px) * SCRATCH_TO_CM_RATE)
  let acts1 : List Action :=
    if MIN_TELLO_MOVE ≤ |dx| then
      let r := posToCommand sn dx 'h'
      [⟨r.2.1, [r.1], false, sn⟩]
    else []
  let dy := pyInt ((newY - py) * SCRATCH_TO_CM_RATE)
  let acts2 : List Action :=
    if MIN_TELLO_MOVE ≤ |dy| then
      let r := posToCommand sn dy 'v'
      [⟨r.2.1, [r.1], false, sn⟩]
    else []
  acts1 ++ acts2

/-- The action appended by the `looks_setsizeto`/`looks_changesizeby` handler
(lines 160-161): a single vertical command when the integer delta reaches
`MIN_TELLO_MOVE`, nothing otherwise; no warnings are recorded. -/
def altitudeMoveActions (sn : J) (pz newZ : ℚ) : List Action :=
  let dz := pyInt (newZ - pz)
  if MIN_TELLO_MOVE ≤ |dz| then
    let r := heightToCommand sn dz
    [⟨r.2.1, [r.1], false, sn⟩]
  else []

/-! ## `_traverse_blocks` -/

/-- The argument-binding loop of the `procedures_call` branch (lines 112-117):
`for i, arg_id in enumerate(arg_ids_from_call): ...`. -/
def bindCallArgs (inputsJ : J) (bl : List (String × J))
    (vars args : List (J × ℚ)) (argNames : J) :
    List J → Nat → List (J × ℚ) → Except PExn (List (J × ℚ))
  | [], _, acc => .ok acc
  | argId :: rest, i, acc => do
    let slot ← dictGetJ inputsJ argId
    let v ← getInputValue slot bl vars args
    let nlen ← pyLen argNames
    if i < nlen then do
      let argName ← pyIndex argNames i
      let acc' ← dictSetQ acc argName v
      bindCallArgs inputsJ bl vars args argNames rest (i + 1) acc'
    else bindCallArgs inputsJ bl vars args argNames rest (i + 1) acc

/-- `for _ in range(k): nested_actions, (px, py, pz), current_vars =
_traverse_blocks(substack_id, (px, py, pz), current_vars, ...)` — the
substack unrolling loop shared by `control_repeat` (lines 167-169) and
`control_forever` (lines 173-175), parametrized by the traversal of the
substack from a given state. -/
def iterTrav
    (tr : ℚ × ℚ × ℚ → List (J × ℚ) →
      Except TErr (List Action × (ℚ × ℚ × ℚ) × List (J × ℚ))) :
    Nat → ℚ × ℚ × ℚ → List (J × ℚ) →
    Except TErr (List Action × (ℚ × ℚ × ℚ) × List (J × ℚ))
  | 0, pos, vars => .ok ([], pos, vars)
  | Nat.succ k, pos, vars =>
    match tr pos vars with
    | .error e => .error e
    | .ok (a1, pos1, vars1) =>
      match iterTrav tr k pos1 vars1 with
      | .error e => .error e
      | .ok (a2, pos2, vars2) => .ok (a1 ++ a2, pos2, vars2)

/-- Shallow embedding of the `while current_block_id:` loop of
`_traverse_blocks` (lines 90-178): look up the current block, dispatch on its
opcode (appending actions and updating position/variable state), then follow
the `next` link.  `fuel` bounds the loop/recursion depth; running out of fuel
yields `TErr.fuelOut`, the embedding's stand-in for a non-terminating Python
execution (cyclic `next` chains or recursive procedures). -/
def traverse (sn : J) (bl : List (String × J)) (procs : List (J × ProcDef)) :
    Nat → J → ℚ × ℚ × ℚ → List (J × ℚ) → List (J × ℚ) →
    Except TErr (List Action × (ℚ × ℚ × ℚ) × List (J × ℚ))
  | fuel, bid, pos, vars, args =>
    if !bid.truthy then .ok ([], pos, vars)
    else
      match fuel with
      | 0 => .error .fuelOut
      | Nat.succ f =>
        match liftE (lookupBlockId bl bid) with
        | .error e => .error e
        | .ok none => .ok ([], pos, vars)
        | .ok (some bj) =>
          if !bj.truthy then .ok ([], pos, vars)
          else
            match bj with
            | J.obj o =>
              let px := pos.1
              let py := pos.2.1
              let pz := pos.2.2
              let opcode := (lookupLast o "opcode").getD (.str "")
              let inputsJ := (lookupLast o "inputs").getD (.obj [])
              let step : Except TErr
                  (List Action × (ℚ × ℚ × ℚ) × List (J × ℚ)) :=
                if opcode.eqStr "data_setvariableto" ||
                    opcode.eqStr "data_changevariableby" then do
                  let fs ← liftE (pySubS bj "fields")
                  let vb ← liftE (pySubS fs "VARIABLE")
                  let pr ← liftE (pyUnpack2 vb)
                  let slot ← liftE (getAttrOpt inputsJ "VALUE")
                  let value ← liftE (getInputValue slot bl vars args)
                  let newVars ←
                    if opcode.eqStr "data_setvariableto" then
                      liftE (dictSetQ vars pr.2 value)
                    else do
                      let cur ← liftE (mapGet vars pr.2 0)
                      liftE (dictSetQ vars pr.2 (cur + value))
                  .ok ([], pos, newVars)
                else if opcode.eqStr "procedures_call" then do
                  let mutation ← liftE (getAttrD bj "mutation" (.obj []))
                  let proccodeO ← liftE (getAttrOpt mutation "proccode")
                  let pd ← liftE (procLookup procs (proccodeO.getD .null))
                  match pd with
                  | none => .ok ([], pos, vars)
                  | some defn => do
                    let aidsJ ←
                      liftE (getAttrD mutation "argumentids" (.str "[]"))
                    let aids ← liftE (jsonLoads aidsJ)
                    let aidList ← liftE (pyIter aids)
                    let newArgs ← liftE
                      (bindCallArgs inputsJ bl vars args defn.argNames
                        aidList 0 [])
                    traverse sn bl procs f defn.startBlockId pos vars newArgs
                else if opcode.eqStr "motion_turnright" ||
                    opcode.eqStr "motion_turnleft" then do
                  let slot ← liftE (getAttrOpt inputsJ "DEGREES")
                  let degrees ← liftE (getInputValue slot bl vars args)
                  let cmdType :=
                    if opcode.eqStr "motion_turnright" then "cw" else "ccw"
                  let cmd : Cmd := ⟨sn, cmdType ++ " " ++ toString (pyInt degrees)⟩
                  let duration := 2 + |degrees| / 90 * (3 / 2)
                  .ok ([⟨duration, [cmd], false, sn⟩], pos, vars)
                else if opcode.eqStr "event_broadcast" then do
                  let slot ← liftE (getAttrOpt inputsJ "BROADCAST_INPUT")
                  let msgJ ← liftE (getBroadcastMessage slot bl)
                  match msgJ with
                  | .str message =>
                    let lower := message.toLower
                    if lower.startsWith "flip" then
                      match pySplitWs lower with
                      | [_, p2] =>
                        if p2 == "l" || p2 == "r" || p2 == "f" || p2 == "b" then
                          .ok ([⟨3, [⟨sn, "flip " ++ p2⟩], false, sn⟩], pos, vars)
                        else .ok ([], pos, vars)
                      | _ => .ok ([], pos, vars)
                    else .ok ([], pos, vars)
                  | _ => .error (.exn .attrErr)
                else if opcode.eqStr "motion_gotoxy" ||
                    opcode.eqStr "motion_movesteps" then do
                  let nxy ←
                    if opcode.eqStr "motion_gotoxy" then do
                      let sx ← liftE (getAttrOpt inputsJ "X")
                      let vx ← liftE (getInputValue sx bl vars args)
                      let sy ← liftE (getAttrOpt inputsJ "Y")
                      let vy ← liftE (getInputValue sy bl vars args)
                      pure (vx, vy)
                    else do
                      let ss ← liftE (getAttrOpt inputsJ "STEPS")
                      let steps ← liftE (getInputValue ss bl vars args)
                      pure (px, py + steps)
                  .ok (planarMoveActions sn px py nxy.1 nxy.2,
                    (nxy.1, nxy.2, pz), vars)
                else if opcode.eqStr "control_wait" then do
                  let slot ← liftE (getAttrOpt inputsJ "DURATION")
                  let duration ← liftE (getInputValue slot bl vars args)
                  if 0 < duration then
                    .ok ([⟨duration, [], true, sn⟩], pos, vars)
                  else .ok ([], pos, vars)
                else if opcode.eqStr "looks_setsizeto" ||
                    opcode.eqStr "looks_changesizeby" then do
                  let newZ ←
                    if opcode.eqStr "looks_setsizeto" then do
                      let slot ← liftE (getAttrOpt inputsJ "SIZE")
                      liftE (getInputValue slot bl vars args)
                    else do
                      let slot ← liftE (getAttrOpt inputsJ "CHANGE")
                      let change ← liftE (getInputValue slot bl vars args)
                      pure (pz + change)
                  .ok (altitudeMoveActions sn pz newZ, (px, py, newZ), vars)
                else if opcode.eqStr "control_repeat" then do
                  let slot ← liftE (getAttrOpt inputsJ "TIMES")
                  let timesQ ← liftE (getInputValue slot bl vars args)
                  let times := pyRound timesQ
                  let so ← liftE (getAttrOpt inputsJ "SUBSTACK")
                  let subJ ← liftE (pyIndex (so.getD (.arr [.null, .null])) 1)
                  if 0 < times ∧ subJ.truthy then
                    iterTrav
                      (fun pos1 vars1 =>
                        traverse sn bl procs f subJ pos1 vars1 args)
                      times.toNat pos vars
                  else .ok ([], pos, vars)
                else if opcode.eqStr "control_forever" then do
                  let so ← liftE (getAttrOpt inputsJ "SUBSTACK")
                  let subJ ← liftE (pyIndex (so.getD (.arr [.null, .null])) 1)
                  if subJ.truthy then
                    iterTrav
                      (fun pos1 vars1 =>
                        traverse sn bl procs f subJ pos1 vars1 args)
                      10 pos vars
                  else .ok ([], pos, vars)
                else .ok ([], pos, vars)
              match step with
              | .error e => .error e
              | .ok (acts, pos', vars') =>
                match traverse sn bl procs f
                    ((lookupLast o "next").getD .null) pos' vars' args with
                | .error e => .error e
                | .ok (racts, pos'', vars'') =>
                  .ok (acts ++ racts, pos'', vars'')
            | _ => .error (.exn .attrErr)

/-- The per-block dispatch of `_traverse_blocks` (lines 96-175), factored out
of `traverse` with the recursive traversal passed as `tr` (the call
`_traverse_blocks(..)` at lines 119, 168 and 174).  `stepOf
(traverse sn bl procs f) sn bl procs o`  is definitionally the `step` of
`traverse` at fuel `f + 1` on a block object `o` — see `traverse_obj`. -/
def stepOf
    (tr : J → ℚ × ℚ × ℚ → List (J × ℚ) → List (J × ℚ) →
      Except TErr (List Action × (ℚ × ℚ × ℚ) × List (J × ℚ)))
    (sn : J) (bl : List (String × J)) (procs : List (J × ProcDef))
    (o : List (String × J)) (pos : ℚ × ℚ × ℚ) (vars args : List (J × ℚ)) :
    Except TErr (List Action × (ℚ × ℚ × ℚ) × List (J × ℚ)) :=
  let px := pos.1
  let py := pos.2.1
  let pz := pos.2.2
  let opcode := (lookupLast o "opcode").getD (.str "")
  let inputsJ := (lookupLast o "inputs").getD (.obj [])
  if opcode.eqStr "data_setvariableto" ||
      opcode.eqStr "data_changevariableby" then do
    let fs ← liftE (pySubS (J.obj o) "fields")
    let vb ← liftE (pySubS fs "VARIABLE")
    let pr ← liftE (pyUnpack2 vb)
    let slot ← liftE (getAttrOpt inputsJ "VALUE")
    let value ← liftE (getInputValue slot bl vars args)
    let newVars ←
      if opcode.eqStr "data_setvariableto" then
        liftE (dictSetQ vars pr.2 value)
      else do
        let cur ← liftE (mapGet vars pr.2 0)
        liftE (dictSetQ vars pr.2 (cur + value))
    .ok ([], pos, newVars)
  else if opcode.eqStr "procedures_call" then do
    let mutation ← liftE (getAttrD (J.obj o) "mutation" (.obj []))
    let proccodeO ← liftE (getAttrOpt mutation "proccode")
    let pd ← liftE (procLookup procs (proccodeO.getD .null))
    match pd with
    | none => .ok ([], pos, vars)
    | some defn => do
      let aidsJ ←
        liftE (getAttrD mutation "argumentids" (.str "[]"))
      let aids ← liftE (jsonLoads aidsJ)
      let aidList ← liftE (pyIter aids)
      let newArgs ← liftE
        (bindCallArgs inputsJ bl vars args defn.argNames
          aidList 0 [])
      tr defn.startBlockId pos vars newArgs
  else if opcode.eqStr "motion_turnright" ||
      opcode.eqStr "motion_turnleft" then do
    let slot ← liftE (getAttrOpt inputsJ "DEGREES")
    let degrees ← liftE (getInputValue slot bl vars args)
    let cmdType :=
      if opcode.eqStr "motion_turnright" then "cw" else "ccw"
    let cmd : Cmd := ⟨sn, cmdType ++ " " ++ toString (pyInt degrees)⟩
    let duration := 2 + |degrees| / 90 * (3 / 2)
    .ok ([⟨duration, [cmd], false, sn⟩], pos, vars)
  else if opcode.eqStr "event_broadcast" then do
    let slot ← liftE (getAttrOpt inputsJ "BROADCAST_INPUT")
    let msgJ ← liftE (getBroadcastMessage slot bl)
    match msgJ with
    | .str message =>
      let lower := message.toLower
      if lower.startsWith "flip" then
        match pySplitWs lower with
        | [_, p2] =>
          if p2 == "l" || p2 == "r" || p2 == "f" || p2 == "b" then
            .ok ([⟨3, [⟨sn, "flip " ++ p2⟩], false, sn⟩], pos, vars)
          else .ok ([], pos, vars)
        | _ => .ok ([], pos, vars)
      else .ok ([], pos, vars)
    | _ => .error (.exn .attrErr)
  else if opcode.eqStr "motion_gotoxy" ||
      opcode.eqStr "motion_movesteps" then do
    let nxy ←
      if opcode.eqStr "motion_gotoxy" then do
        let sx ← liftE (getAttrOpt inputsJ "X")
        let vx ← liftE (getInputValue sx bl vars args)
        let sy ← liftE (getAttrOpt inputsJ "Y")
        let vy ← liftE (getInputValue sy bl vars args)
        pure (vx, vy)
      else do
        let ss ← liftE (getAttrOpt inputsJ "STEPS")
        let steps ← liftE (getInputValue ss bl vars args)
        pure (px, py + steps)
    .ok (planarMoveActions sn px py nxy.1 nxy.2,
      (nxy.1, nxy.2, pz), vars)
  else if opcode.eqStr "control_wait" then do
    let slot ← liftE (getAttrOpt inputsJ "DURATION")
    let duration ← liftE (getInputValue slot bl vars args)
    if 0 < duration then
      .ok ([⟨duration, [], true, sn⟩], pos, vars)
    else .ok ([], pos, vars)
  else if opcode.eqStr "looks_setsizeto" ||
      opcode.eqStr "looks_changesizeby" then do
    let newZ ←
      if opcode.eqStr "looks_setsizeto" then do
        let slot ← liftE (getAttrOpt inputsJ "SIZE")
        liftE (getInputValue slot bl vars args)
      else do
        let slot ← liftE (getAttrOpt inputsJ "CHANGE")
        let change ← liftE (getInputValue slot bl vars args)
        pure (pz + change)
    .ok (altitudeMoveActions sn pz newZ, (px, py, newZ), vars)
  else if opcode.eqStr "control_repeat" then do
    let slot ← liftE (getAttrOpt inputsJ "TIMES")
    let timesQ ← liftE (getInputValue slot bl vars args)
    let times := pyRound timesQ
    let so ← liftE (getAttrOpt inputsJ "SUBSTACK")
    let subJ ← liftE (pyIndex (so.getD (.arr [.null, .null])) 1)
    if 0 < times ∧ subJ.truthy then
      iterTrav
        (fun pos1 vars1 =>
          tr subJ pos1 vars1 args)
        times.toNat pos vars
    else .ok ([], pos, vars)
  else if opcode.eqStr "control_forever" then do
    let so ← liftE (getAttrOpt inputsJ "SUBSTACK")
    let subJ ← liftE (pyIndex (so.getD (.arr [.null, .null])) 1)
    if subJ.truthy then
      iterTrav
        (fun pos1 vars1 =>
          tr subJ pos1 vars1 args)
        10 pos vars
    else .ok ([], pos, vars)
  else .ok ([], pos, vars)

/-! ## Schedule events (`parse_to_schedule`, lines 182-235) -/

/-- The five event type tags the synthesizer constructs. -/
inductive EvType where
  | TAKEOFF
  | COMMAND
  | WAIT
  | WARNING
  | LAND
deriving DecidableEq

/-- The `text` payloads of events, abstracted by the numeric/name parameters
interpolated into the source's f-strings:
`takeoffText d` is `f'離陸シーケンス ({d:.1f}秒)'`,
`waitText d` is `f"{d:.2f}秒 待機"`,
`warnShortWait sprite` is the fixed wait-extension warning naming the sprite,
`landText targets` is `f"着陸 (対象: {', '.join(targets)})"`. -/
inductive EvText where
  | takeoffText (secs : ℚ)
  | waitText (secs : ℚ)
  | warnShortWait (sprite : J)
  | landText (targets : List J)

/-- A schedule event dict.  `target`/`text`/`command` are `none` when the
source's dict has no such key (for example WARNING events carry no target). -/
structure Event where
  time : ℚ
  type : EvType
  target : Option J
  text : Option EvText
  command : Option String

/-- The seed event of `final_event_list` (line 184). -/
def takeoffEvent : Event :=
  ⟨0, .TAKEOFF, some (.str "システム"), some (.takeoffText TAKEOFF_DURATION),
    none⟩

/-- Total number of pending actions, the termination measure of the stepping
loop. -/
def totalLen (l : List (J × List Action)) : Nat :=
  (l.map fun p => p.2.length).sum

/-- The actions popped in one round of the stepping loop (line 211): the head
of every non-empty per-actor list, in table order. -/
def roundPopped (l : List (J × List Action)) : List Action :=
  l.filterMap fun p => p.2.head?

/-- `max_duration_this_step`: starting from `0.0`, folded with `max` over the
popped actions in pop order (line 211). -/
def roundMax (l : List (J × List Action)) : ℚ :=
  (roundPopped l).foldl (fun m a => max m a.duration) 0

/-- The per-actor table after one round: every non-empty list loses its head
(`action_list.pop(0)`), exhausted actors keep their empty list. -/
def roundRest (l : List (J × List Action)) : List (J × List Action) :=
  l.map fun p => (p.1, p.2.tail)

/-- The events emitted for one popped action (lines 212-217): a WARNING when
it is a wait shorter than the step's max duration, a WAIT event for every
wait, and one COMMAND event per command — all stamped at the current
`master_time`. -/
def actionEvents (t maxDur : ℚ) (a : Action) : List Event :=
  (if a.is_wait ∧ a.duration < maxDur then
    [⟨t, .WARNING, none, some (.warnShortWait a.sprite_name), none⟩]
  else []) ++
  (if a.is_wait then
    [⟨t, .WAIT, some a.sprite_name, some (.waitText a.duration), none⟩]
  else []) ++
  a.commands.map fun c => ⟨t, .COMMAND, some c.target, none, some c.command⟩

/-- The events of one round, concatenated over the popped actions in order. -/
def roundEvents (t maxDur : ℚ) (popped : List Action) : List Event :=
  popped.foldr (fun a acc => actionEvents t maxDur a ++ acc) []

/-- The body of the `while any(all_actions.values()):` loop (lines 208-218),
with an explicit iteration budget `n` (the loop terminates because every
round removes at least one pending action, so `totalLen l` rounds always
suffice — see `stepLoopAux_sufficient`). -/
def stepLoopAux : Nat → List (J × List Action) → ℚ → List Event × ℚ
  | 0, _, t => ([], t)
  | Nat.succ n, l, t =>
    if l.any (fun p => !p.2.isEmpty) = true then
      let r2 := stepLoopAux n (roundRest l) (t + roundMax l)
      (roundEvents t (roundMax l) (roundPopped l) ++ r2.1, r2.2)
    else ([], t)

/-- The `while any(all_actions.values()):` loop (lines 208-218): repeatedly
pop one action per non-exhausted actor, emit that round's events at the
current `master_time`, and advance `master_time` by the round's max
duration.  Returns the emitted events and the final `master_time`. -/
def stepLoop (l : List (J × List Action)) (t : ℚ) : List Event × ℚ :=
  stepLoopAux (totalLen l) l t

/-- Sort priority within a time instant: WARNING events first
(`0 if x['type'] == 'WARNING' else 1`, line 234). -/
def pri (e : Event) : ℕ :=
  if e.type = .WARNING then 0 else 1

/-- The order used by `final_event_list.sort(key=lambda x: (x['time'], 0 if
x['type'] == 'WARNING' else 1))`: lexicographic on `(time, pri)`. -/
def evLe (a b : Event) : Prop :=
  a.time < b.time ∨ (a.time = b.time ∧ pri a ≤ pri b)

instance : DecidableRel evLe := fun a b => by
  unfold evLe
  infer_instance

instance : IsTotal Event evLe :=
  ⟨by
    intro a b
    rcases lt_trichotomy a.time b.time with h | h | h
    · exact Or.inl (Or.inl h)
    · rcases le_total (pri a) (pri b) with hp | hp
      · exact Or.inl (Or.inr ⟨h, hp⟩)
      · exact Or.inr (Or.inr ⟨h.symm, hp⟩)
    · exact Or.inr (Or.inl h)⟩

instance : IsTrans Event evLe :=
  ⟨by
    intro a b c hab hbc
    rcases hab with h1 | ⟨h1, hp1⟩
    · rcases hbc with h2 | ⟨h2, _⟩
      · exact Or.inl (h1.trans h2)
      · exact Or.inl (h2 ▸ h1)
    · rcases hbc with h2 | ⟨h2, hp2⟩
      · exact Or.inl (h1 ▸ h2)
      · exact Or.inr ⟨h1.trans h2, hp1.trans hp2⟩⟩

/-- The type check of `', '.join(drones_with_actions)` (line 227):
`str.join` succeeds only when every element of the list is a string, and
raises `TypeError` otherwise (for example on the `None` name recorded for a
target with no `name` key). -/
def pyJoinOK (names : List J) : Bool :=
  names.all fun n =>
    match n with
    | J.str _ => true
    | _ => false

/-- The synthesis part of `parse_to_schedule` (lines 184 and 205-235), given
the collected per-actor action lists and the `has_any_valid_action` flag:
seed with the TAKEOFF event at time 0 and `master_time = TAKEOFF_DURATION`,
run the stepping loop, append the LAND event at `master_time + 0.1` when at
least one actor had actions — the `', '.join` building the LAND text raises
`TypeError` when a recorded actor name is not a string — and stable-sort by
`(time, pri)`. -/
def schedOfActions (allActions : List (J × List Action)) (hasAnyValid : Bool) :
    Except PExn (List Event × ℚ) :=
  let dronesWithActions := allActions.map (·.1)
  let res := stepLoop allActions TAKEOFF_DURATION
  let preLand := takeoffEvent :: res.1
  let withLand : Except PExn (List Event × ℚ) :=
    if hasAnyValid ∧ !dronesWithActions.isEmpty then
      if pyJoinOK dronesWithActions then
        let landTime := res.2 + 1 / 10
        .ok (preLand ++ [⟨landTime, .LAND, some (.str "ALL"),
          some (.landText dronesWithActions), some "land"⟩], landTime)
      else .error .typeErr
    else .ok (preLand, res.2)
  match withLand with
  | .error e => .error e
  | .ok wl => .ok (List.insertionSort evLe wl.1, wl.2)

/-! ## Per-sprite parsing and `parse_to_schedule` assembly -/

/-- Is this block table entry a dict whose opcode is the flag-click trigger
(`_find_start_block`'s test, lines 237-242)? -/
def isFlagBlock (b : J) : Bool :=
  match b with
  | .obj o => ((lookupLast o "opcode").getD .null).eqStr "event_whenflagclicked"
  | _ => false

/-- `_find_start_block` (lines 237-242): the `next` link of the first
flag-click block, or `None`. -/
def findStartBlock (blocks : List (String × J)) : J :=
  match blocks.find? fun p => isFlagBlock p.2 with
  | some p =>
    match p.2 with
    | .obj o => (lookupLast o "next").getD .null
    | _ => .null
  | none => .null

/-- `_find_procedure_definitions_for_target` (lines 58-81). -/
def findProcedureDefs (targetBlocks : List (String × J))
    (allBlocks : List (String × J)) : Except PExn (List (J × ProcDef)) :=
  targetBlocks.foldlM
    (fun procs p =>
      match p.2 with
      | J.obj o =>
        if ((lookupLast o "opcode").getD .null).eqStr "procedures_definition"
            then do
          let inputs ← getAttrD p.2 "inputs" (.obj [])
          let cb ← getAttrD inputs "custom_block" (.arr [.null, .null])
          let protoId ← pyIndex cb 1
          if protoId.truthy then
            match protoId with
            | .arr _ => .error .typeErr
            | .obj _ => .error .typeErr
            | .str s =>
              match lookupLast allBlocks s with
              | some protoBlock => do
                let mutation ← getAttrD protoBlock "mutation" (.obj [])
                let proccodeO ← getAttrOpt mutation "proccode"
                let proccode := proccodeO.getD .null
                if proccode.truthy then do
                  let aidsJ ← getAttrD mutation "argumentids" (.str "[]")
                  let argIds ← jsonLoads aidsJ
                  let anamesJ ← getAttrD mutation "argumentnames" (.str "[]")
                  let argNames ← jsonLoads anamesJ
                  let startId ← getAttrD p.2 "next" .null
                  dictSetProc procs proccode ⟨startId, argIds, argNames⟩
                else .ok procs
              | none => .ok procs
            | _ => .ok procs
          else .ok procs
        else .ok procs
      | _ => .ok procs)
    []

/-- `_parse_sprite_to_actions` (lines 83-180): resolve the entry block; an
actor without a truthy entry is inert (and does not set
`has_any_valid_action`, returned here as the second component). -/
def parseSpriteToActions (fuel : Nat) (sn : J) (blocks : List (String × J))
    (allBlocks : List (String × J)) (initVars : List (J × ℚ))
    (procs : List (J × ProcDef)) : Except TErr (List Action × Bool) :=
  let start := findStartBlock blocks
  if !start.truthy then .ok ([], false)
  else
    match traverse sn allBlocks procs fuel start
        (0, 0, INITIAL_HOVER_HEIGHT_CM) initVars [] with
    | .error e => .error e
    | .ok (acts, _, _) => .ok (acts, true)

/-- `self.project_data.get('targets', [])`, iterated. -/
def projTargets (pd : J) : Except PExn (List J) := do
  let tj ← getAttrD pd "targets" (.arr [])
  pyIter tj

/-- The cross-actor block table comprehension of line 186 (later targets'
entries override earlier ones, as in a dict comprehension). -/
def collectAllBlocks (targets : List J) : Except PExn (List (String × J)) :=
  targets.foldlM
    (fun acc t => do
      let bj ← getAttrD t "blocks" (.obj [])
      match bj with
      | .obj entries => .ok (entries.foldl (fun a p => updateS a p.1 p.2) acc)
      | _ => .error .attrErr)
    []

/-- `try: initial_value = float(var_data[1]) except (ValueError, TypeError):
initial_value = 0.0` (lines 191-192). -/
def varInitValue (varData : J) : Except PExn ℚ :=
  catchTV (do pyFloat (← pyIndex varData 1))

/-- The project-wide initial variable snapshot (lines 188-193). -/
def initialVariableState (targets : List J) : Except PExn (List (J × ℚ)) :=
  targets.foldlM
    (fun st t => do
      let vj ← getAttrD t "variables" (.obj [])
      match vj with
      | .obj entries =>
        entries.foldlM
          (fun st2 p => do
            let iv ← varInitValue p.2
            dictSetQ st2 (.str p.1) iv)
          st
      | _ => .error .attrErr)
    []

/-- `all_actions[sprite_name] = actions` with Python's hashability check. -/
def updateActs : List (J × List Action) → J → List Action →
    List (J × List Action)
  | [], k, v => [(k, v)]
  | (k', v') :: rest, k, v =>
    if keyEq k' k then (k', v) :: rest else (k', v') :: updateActs rest k v

/-- Dict assignment into `all_actions`. -/
def dictSetActs (m : List (J × List Action)) (k : J) (v : List Action) :
    Except PExn (List (J × List Action)) :=
  match k with
  | .arr _ => .error .typeErr
  | .obj _ => .error .typeErr
  | _ => .ok (updateActs m k v)

/-- The body of the per-sprite loop of `parse_to_schedule` (lines 195-203)
for one target: skip the stage, discover procedures, parse the sprite, and
record a non-empty action list keyed by the sprite name; the `Bool`
accumulates `has_any_valid_action`. -/
def spriteStep (fuel : Nat) (allBlocks : List (String × J))
    (initVars : List (J × ℚ)) (acc : List (J × List Action) × Bool)
    (t : J) : Except TErr (List (J × List Action) × Bool) := do
  let stage ← liftE (getAttrD t "isStage" (.bool false))
  if stage.truthy then .ok acc
  else do
    let nameO ← liftE (getAttrOpt t "name")
    let sn := nameO.getD .null
    let bj ← liftE (getAttrD t "blocks" (.obj []))
    let entries ←
      match bj with
      | .obj entries => (.ok entries : Except TErr (List (String × J)))
      | _ => .error (.exn .attrErr)
    let procs ← liftE (findProcedureDefs entries allBlocks)
    let res ← parseSpriteToActions fuel sn entries allBlocks initVars procs
    let flag := acc.2 || res.2
    if !res.1.isEmpty then do
      let m ← liftE (dictSetActs acc.1 sn res.1)
      .ok (m, flag)
    else .ok (acc.1, flag)

/-- The per-sprite loop of `parse_to_schedule` (lines 195-203). -/
def actionsPhase (fuel : Nat) (targets : List J)
    (allBlocks : List (String × J)) (initVars : List (J × ℚ)) :
    Except TErr (List (J × List Action) × Bool) :=
  targets.foldlM (spriteStep fuel allBlocks initVars) ([], false)

/-- Lines 186-203 of `parse_to_schedule`: extract the targets, build the
cross-actor block table and the initial variable snapshot, and run the
per-sprite loop. -/
def collectPhase (fuel : Nat) (pd : J) :
    Except TErr (List (J × List Action) × Bool) := do
  let targets ← liftE (projTargets pd)
  let allBlocks ← liftE (collectAllBlocks targets)
  let initVars ← liftE (initialVariableState targets)
  actionsPhase fuel targets allBlocks initVars

/-- Shallow embedding of `ScratchProjectParser.parse_to_schedule`
(lines 182-235).  `projectData` is `self.project_data` (`none` models the
`None` left by a failed `_load_project_data`); a falsy project yields
`([], 0.0)` (line 183). -/
def parseToSchedule (fuel : Nat) (projectData : Option J) :
    Except TErr (List Event × ℚ) :=
  match projectData with
  | none => .ok ([], 0)
  | some pd =>
    if !pd.truthy then .ok ([], 0)
    else
      match collectPhase fuel pd with
      | .error e => .error e
      | .ok (allA, flag) => liftE (schedOfActions allA flag)

/-! ## Acyclicity witness for the traversal (used to state termination) -/

/-- The rank constraints on one entry of the cross-actor block table: every
edge the traversal can follow out of the block — its `next` link, the
substack entry of a `control_repeat`/`control_forever`, and the body entry of
a resolvable `procedures_call` — leads to a strictly smaller rank (edges the
traversal would reject with a Python exception, or falsy ids it would treat
as chain ends, are unconstrained).  A rank function satisfying this for every
entry witnesses that `next` chains are acyclic and procedure calls are
non-recursive. -/
def edgeOK (rank : J → ℕ) (procs : List (J × ProcDef)) (p : String × J) :
    Bool :=
  match p.2 with
  | J.obj o =>
    let selfRank := rank (J.str p.1)
    let opcode := (lookupLast o "opcode").getD (.str "")
    let inputsJ := (lookupLast o "inputs").getD (.obj [])
    let nextJ := (lookupLast o "next").getD .null
    let nextOK := !nextJ.truthy || decide (rank nextJ < selfRank)
    let subOK :=
      if opcode.eqStr "control_repeat" || opcode.eqStr "control_forever" then
        match getAttrOpt inputsJ "SUBSTACK" with
        | .ok so =>
          match pyIndex (so.getD (.arr [.null, .null])) 1 with
          | .ok subJ => !subJ.truthy || decide (rank subJ < selfRank)
          | .error _ => true
        | .error _ => true
      else true
    let procOK :=
      if opcode.eqStr "procedures_call" then
        match getAttrD p.2 "mutation" (.obj []) with
        | .ok mutation =>
          match getAttrOpt mutation "proccode" with
          | .ok proccodeO =>
            match procLookup procs (proccodeO.getD .null) with
            | .ok (some defn) =>
              !defn.startBlockId.truthy ||
                decide (rank defn.startBlockId < selfRank)
            | .ok none => true
            | .error _ => true
          | .error _ => true
        | .error _ => true
      else true
    nextOK && subOK && procOK
  | _ => true

/-! ## Concrete example projects -/

/-- A readable project with one actor and no flag-click block anywhere. -/
def projNoFlag : J :=
  .obj [("targets", .arr [.obj [("name", .str "A"), ("blocks", .obj [])]])]

/-- One actor: flag-click, then `motion_gotoxy` to `(19, 0)` — a planar move
whose horizontal delta (19 cm) is one below `MIN_TELLO_MOVE`. -/
def projBelowThreshold : J :=
  .obj [("targets", .arr [.obj [("name", .str "A"), ("blocks", .obj [
    ("f", .obj [("opcode", .str "event_whenflagclicked"),
      ("next", .str "g")]),
    ("g", .obj [("opcode", .str "motion_gotoxy"),
      ("inputs", .obj [("X", .arr [.num 1, .arr [.num 4, .num 19]]),
        ("Y", .arr [.num 1, .arr [.num 4, .num 0]])]),
      ("next", .null)])])]])]

/-- One actor: flag-click, `motion_turnright` by 90 degrees, then
`motion_movesteps` by 50 steps. -/
def projTurnThenMove : J :=
  .obj [("targets", .arr [.obj [("name", .str "A"), ("blocks", .obj [
    ("f", .obj [("opcode", .str "event_whenflagclicked"),
      ("next", .str "t")]),
    ("t", .obj [("opcode", .str "motion_turnright"),
      ("inputs", .obj [("DEGREES", .arr [.num 1, .arr [.num 4, .num 90]])]),
      ("next", .str "m")]),
    ("m", .obj [("opcode", .str "motion_movesteps"),
      ("inputs", .obj [("STEPS", .arr [.num 1, .arr [.num 4, .num 50]])]),
      ("next", .null)])])]])]

/-- A two-block chain — `motion_turnright` by `d` degrees, then
`motion_movesteps` by `s` steps — with the numeric literals as
parameters. -/
def turnMoveBlocks (d s : ℚ) : List (String × J) :=
  [("t", .obj [("opcode", .str "motion_turnright"),
      ("inputs", .obj [("DEGREES", .arr [.num 1, .arr [.num 4, .num d]])]),
      ("next", .str "m")]),
   ("m", .obj [("opcode", .str "motion_movesteps"),
      ("inputs", .obj [("STEPS", .arr [.num 1, .arr [.num 4, .num s]])]),
      ("next", .null)])]

/-- One actor: flag-click, then `motion_gotoxy` to `(40, 0)` — a single
40 cm rightward move. -/
def projOneMove : J :=
  .obj [("targets", .arr [.obj [("name", .str "A"), ("blocks", .obj [
    ("f", .obj [("opcode", .str "event_whenflagclicked"),
      ("next", .str "g")]),
    ("g", .obj [("opcode", .str "motion_gotoxy"),
      ("inputs", .obj [("X", .arr [.num 1, .arr [.num 4, .num 40]]),
        ("Y", .arr [.num 1, .arr [.num 4, .num 0]])]),
      ("next", .null)])])]])]

/-- One actor with no `name` key (so `target.get('name')` is `None`):
flag-click, then `motion_gotoxy` to `(40, 0)`. -/
def projNoName : J :=
  .obj [("targets", .arr [.obj [("blocks", .obj [
    ("f", .obj [("opcode", .str "event_whenflagclicked"),
      ("next", .str "g")]),
    ("g", .obj [("opcode", .str "motion_gotoxy"),
      ("inputs", .obj [("X", .arr [.num 1, .arr [.num 4, .num 40]]),
        ("Y", .arr [.num 1, .arr [.num 4, .num 0]])]),
      ("next", .null)])])]])]

/-- A block table with a `control_forever` loop whose substack is a single
1-second wait. -/
def foreverBlocks : List (String × J) :=
  [("loop", .obj [("opcode", .str "control_forever"),
      ("inputs", .obj [("SUBSTACK", .arr [.num 2, .str "body"])]),
      ("next", .null)]),
   ("body", .obj [("opcode", .str "control_wait"),
      ("inputs", .obj [("DURATION", .arr [.num 1, .arr [.num 4, .num 1]])]),
      ("next", .null)])]

/-- A rank function witnessing acyclicity of `foreverBlocks`. -/
def foreverRank (j : J) : ℕ :=
  match j with
  | .str s => if s == "loop" then 1 else 0
  | _ => 0

/-! ## Theorems -/

theorem getInputValue_num_lit (q : ℚ) (bl : List (String × J))
    (vs as_ : List (J × ℚ)) :
    getInputValue (some (.arr [.num 1, .arr [.num 4, .num q]])) bl vs as_ =
      .ok q := by
  simp [getInputValue, pyIndex, pyEqNum, J.truthy, pyFloat, catchTV,
    Bind.bind, Except.bind]

/--
C8: for every axis-move command of nonzero distance, the duration is
`max(distance / axis_speed + MOVE_TIME_OVERHEAD, MINIMUM_MOVE_TIME)`, with
the horizontal speed constant for both planar direction types (`'h'`
right/left and `'v'` forward/back) and the vertical speed constant for
altitude moves.
-/
theorem c8_axis_move_duration (name : J) (d : ℤ) (hd : d ≠ 0) :
    (posToCommand name d 'h').2.1 =
      max ((d.natAbs : ℚ) / TELLO_HORIZONTAL_SPEED_CMS + MOVE_TIME_OVERHEAD)
        MINIMUM_MOVE_TIME ∧
    (posToCommand name d 'v').2.1 =
      max ((d.natAbs : ℚ) / TELLO_HORIZONTAL_SPEED_CMS + MOVE_TIME_OVERHEAD)
        MINIMUM_MOVE_TIME ∧
    (heightToCommand name d).2.1 =
      max ((d.natAbs : ℚ) / TELLO_VERTICAL_SPEED_CMS + MOVE_TIME_OVERHEAD)
        MINIMUM_MOVE_TIME := by
  have hq : ((d.natAbs : ℚ)) ≠ 0 := by
    simp [Int.natAbs_eq_zero, hd]
  refine ⟨?_, ?_, ?_⟩ <;>
    simp [posToCommand, heightToCommand, calculateRealisticDuration,
      beq_iff_eq, hq]

/-- Witness for C8 at `d = 20`. -/
theorem c8_axis_move_duration_witness :
    (posToCommand (.str "A") 20 'h').2.1 =
      max (((20 : ℤ).natAbs : ℚ) / TELLO_HORIZONTAL_SPEED_CMS +
        MOVE_TIME_OVERHEAD) MINIMUM_MOVE_TIME ∧
    (posToCommand (.str "A") 20 'v').2.1 =
      max (((20 : ℤ).natAbs : ℚ) / TELLO_HORIZONTAL_SPEED_CMS +
        MOVE_TIME_OVERHEAD) MINIMUM_MOVE_TIME ∧
    (heightToCommand (.str "A") 20).2.1 =
      max (((20 : ℤ).natAbs : ℚ) / TELLO_VERTICAL_SPEED_CMS +
        MOVE_TIME_OVERHEAD) MINIMUM_MOVE_TIME :=
  c8_axis_move_duration (.str "A") 20 (by decide)

/--
C7: `_get_input_value` returns `0.0` without raising for each of the
enumerated failure shapes: missing slot, empty (falsy) input, non-numeric
literal, reference to a missing block, reference to a non-dict block,
unbound procedure-argument placeholder, and unknown variable id.
-/
theorem c7_input_value_defaults :
    (∀ bl vs as_, getInputValue none bl vs as_ = .ok 0) ∧
    (∀ bl vs as_, getInputValue (some (.arr [])) bl vs as_ = .ok 0) ∧
    (∀ bl vs as_ (s : String), strToNum s = none →
      getInputValue (some (.arr [.num 1, .arr [.num 4, .str s]])) bl vs as_ =
        .ok 0) ∧
    (∀ bl vs as_ (id : String), lookupLast bl id = none →
      getInputValue (some (.arr [.num 1, .str id])) bl vs as_ = .ok 0) ∧
    (∀ bl vs as_ (id : String) (v : J), lookupLast bl id = some v →
      (∀ o, v ≠ .obj o) →
      getInputValue (some (.arr [.num 1, .str id])) bl vs as_ = .ok 0) ∧
    (∀ bl vs as_ (id nm : String),
      lookupLast bl id = some (.obj
        [("opcode", .str "argument_reporter_string_number"),
         ("fields", .obj [("VALUE", .arr [.str nm])])]) →
      as_.find? (fun p => keyEq p.1 (.str nm)) = none →
      getInputValue (some (.arr [.num 1, .str id])) bl vs as_ = .ok 0) ∧
    (∀ bl vs as_ (nmJ : J) (vid : String),
      vs.find? (fun p => keyEq p.1 (.str vid)) = none →
      getInputValue (some (.arr [.num 3, .arr [.num 12, nmJ, .str vid]]))
        bl vs as_ = .ok 0) := by
  refine ⟨?_, ?_, ?_, ?_, ?_, ?_, ?_⟩
  · intro bl vs as_
    simp [getInputValue]
  · intro bl vs as_
    simp [getInputValue, J.truthy]
  · intro bl vs as_ s hs
    simp [getInputValue, pyIndex, pyEqNum, J.truthy, pyFloat, catchTV, hs,
      Bind.bind, Except.bind]
  · intro bl vs as_ id hid
    simp [getInputValue, pyIndex, pyEqNum, J.truthy, hid, Bind.bind,
      Except.bind]
  · intro bl vs as_ id v hv hno
    cases v <;>
      simp_all [getInputValue, pyIndex, pyEqNum, J.truthy, Bind.bind,
        Except.bind]
  · intro bl vs as_ id nm hv hargs
    simp [getInputValue, pyIndex, pyEqNum, J.truthy, hv, Bind.bind,
      Except.bind, pySubS, J.eqStr]
    simp [lookupLast, List.lookup, mapGet, hargs, Bind.bind, Except.bind]
  · intro bl vs as_ nmJ vid hvs
    simp [getInputValue, pyIndex, pyEqNum, J.truthy, mapGet, hvs, Bind.bind,
      Except.bind]

/-- Witness for C7's hypothesis-carrying conjuncts at concrete inputs. -/
theorem c7_input_value_defaults_witness :
    getInputValue (some (.arr [.num 1, .arr [.num 4, .str "abc"]])) [] [] [] =
      .ok 0 ∧
    getInputValue (some (.arr [.num 1, .str "missing"])) [] [] [] = .ok 0 ∧
    getInputValue (some (.arr [.num 1, .str "x"])) [("x", .num 5)] [] [] =
      .ok 0 ∧
    getInputValue (some (.arr [.num 1, .str "x"]))
      [("x", .obj [("opcode", .str "argument_reporter_string_number"),
        ("fields", .obj [("VALUE", .arr [.str "n"])])])] [] [] = .ok 0 ∧
    getInputValue (some (.arr [.num 3, .arr [.num 12, .str "v", .str "vid"]]))
      [] [] [] = .ok 0 :=
  ⟨c7_input_value_defaults.2.2.1 [] [] [] "abc" rfl,
   c7_input_value_defaults.2.2.2.1 [] [] [] "missing" rfl,
   c7_input_value_defaults.2.2.2.2.1 [("x", .num 5)] [] [] "x" (.num 5) rfl
     (fun o h => by cases h),
   c7_input_value_defaults.2.2.2.2.2.1
     [("x", .obj [("opcode", .str "argument_reporter_string_number"),
       ("fields", .obj [("VALUE", .arr [.str "n"])])])] [] [] "x" "n" rfl rfl,
   c7_input_value_defaults.2.2.2.2.2.2 [] [] [] (.str "v") "vid" rfl⟩

/--
C2, counterexample: in the project `projBelowThreshold` the only motion is a
planar move with horizontal delta 19 cm (one below `MIN_TELLO_MOVE`), yet the
parsed schedule contains no WARNING event at all (and no command): the claim
that a below-threshold axis yields "exactly one warning string attached to
the Action (surfaced later as a WARNING event)" is false.
-/
theorem c2_below_threshold_counterexample :
    parseToSchedule 3 (some projBelowThreshold) =
      .ok ([takeoffEvent], TAKEOFF_DURATION) ∧
    List.countP (fun e => e.type == EvType.WARNING) [takeoffEvent] = 0 ∧
    List.countP (fun e => e.type == EvType.COMMAND) [takeoffEvent] = 0 :=
  ⟨rfl, rfl, rfl⟩

/--
C2, amended: an axis whose integer delta has absolute value exactly
`MIN_TELLO_MOVE` produces exactly one movement command; an axis whose delta
is strictly below the constant produces zero commands for that axis and *no*
warning — the command builders return an always-empty warnings list, which
the traversal discards, so nothing is attached to the Action and no WARNING
event is surfaced.
-/
theorem c2_threshold_amended (sn : J) (px py pz newX newZ : ℚ) :
    (|pyInt ((newX - px) * SCRATCH_TO_CM_RATE)| = MIN_TELLO_MOVE →
      planarMoveActions sn px py newX py =
        [⟨(posToCommand sn (pyInt ((newX - px) * SCRATCH_TO_CM_RATE)) 'h').2.1,
          [(posToCommand sn (pyInt ((newX - px) * SCRATCH_TO_CM_RATE)) 'h').1],
          false, sn⟩]) ∧
    (|pyInt ((newX - px) * SCRATCH_TO_CM_RATE)| < MIN_TELLO_MOVE →
      planarMoveActions sn px py newX py = []) ∧
    (|pyInt (newZ - pz)| = MIN_TELLO_MOVE →
      altitudeMoveActions sn pz newZ =
        [⟨(heightToCommand sn (pyInt (newZ - pz))).2.1,
          [(heightToCommand sn (pyInt (newZ - pz))).1], false, sn⟩]) ∧
    (|pyInt (newZ - pz)| < MIN_TELLO_MOVE →
      altitudeMoveActions sn pz newZ = []) ∧
    (∀ (d : ℤ) (dt : Char), (posToCommand sn d dt).2.2 = []) ∧
    (∀ d : ℤ, (heightToCommand sn d).2.2 = []) := by
  have hdy : pyInt ((py - py) * SCRATCH_TO_CM_RATE) = 0 := by
    norm_num [pyInt, SCRATCH_TO_CM_RATE]
  have hdy2 : ¬ (MIN_TELLO_MOVE ≤ |pyInt ((py - py) * SCRATCH_TO_CM_RATE)|) := by
    rw [hdy]
    decide
  refine ⟨?_, ?_, ?_, ?_, ?_, ?_⟩
  · intro h
    have hge : MIN_TELLO_MOVE ≤ |pyInt ((newX - px) * SCRATCH_TO_CM_RATE)| :=
      h.symm.le
    simp [planarMoveActions, hge, hdy2]
    decide
  · intro h
    have hlt : ¬ (MIN_TELLO_MOVE ≤ |pyInt ((newX - px) * SCRATCH_TO_CM_RATE)|) :=
      not_le.mpr h
    simp [planarMoveActions, hlt, hdy2]
    decide
  · intro h
    have hge : MIN_TELLO_MOVE ≤ |pyInt (newZ - pz)| := h.symm.le
    simp [altitudeMoveActions, hge]
  · intro h
    have hlt : ¬ (MIN_TELLO_MOVE ≤ |pyInt (newZ - pz)|) := not_le.mpr h
    simp [altitudeMoveActions, hlt]
  · intro d dt
    by_cases h : dt == 'h' <;> simp [posToCommand, h]
  · intro d
    simp [heightToCommand]

/-- Witness for C2's amended statement: deltas of exactly 20 cm and of
19 cm, on both the planar and the vertical axis. -/
theorem c2_threshold_amended_witness :
    planarMoveActions (.str "A") 0 0 20 0 =
      [⟨(posToCommand (.str "A")
          (pyInt ((20 - 0) * SCRATCH_TO_CM_RATE)) 'h').2.1,
        [(posToCommand (.str "A")
          (pyInt ((20 - 0) * SCRATCH_TO_CM_RATE)) 'h').1], false, .str "A"⟩] ∧
    planarMoveActions (.str "A") 0 0 19 0 = [] ∧
    altitudeMoveActions (.str "A") 80 100 =
      [⟨(heightToCommand (.str "A") (pyInt (100 - 80))).2.1,
        [(heightToCommand (.str "A") (pyInt (100 - 80))).1], false,
        .str "A"⟩] ∧
    altitudeMoveActions (.str "A") 80 99 = [] :=
  ⟨(c2_threshold_amended (.str "A") 0 0 80 20 100).1 (by decide),
   (c2_threshold_amended (.str "A") 0 0 80 19 100).2.1 (by decide),
   (c2_threshold_amended (.str "A") 0 0 80 20 100).2.2.1 (by decide),
   (c2_threshold_amended (.str "A") 0 0 80 20 99).2.2.2.1 (by decide)⟩

/--
C5: a popped wait action strictly shorter than its round's max duration
yields exactly one WARNING event at the round's `master_time`, followed by a
WAIT event whose text carries the action's *original* duration (not the
extended step length).
-/
theorem c5_wait_extension_warning (t maxDur : ℚ) (a : Action)
    (hw : a.is_wait = true) (hd : a.duration < maxDur) :
    actionEvents t maxDur a =
      ⟨t, .WARNING, none, some (.warnShortWait a.sprite_name), none⟩ ::
      ⟨t, .WAIT, some a.sprite_name, some (.waitText a.duration), none⟩ ::
      a.commands.map (fun c => ⟨t, .COMMAND, some c.target, none,
        some c.command⟩) ∧
    List.countP (fun e => e.type == EvType.WARNING)
      (actionEvents t maxDur a) = 1 := by
  constructor
  · simp [actionEvents, hw, hd]
  · simp [actionEvents, hw, hd, List.countP_cons, List.countP_map]

/--
C3, counterexample: in `projTurnThenMove` the actor first turns right 90
degrees; a heading-tracking interpreter would then translate
`motion_movesteps 50` into a horizontal-axis move (`"right 50"`).  The code
instead emits the depth-axis command `"forward 50"` and never any
`"right 50"`: rotations only emit `cw`/`ccw` commands and do not affect
move-by-steps, so the claimed heading dependence is false.
-/
theorem c3_heading_counterexample :
    parseToSchedule 4 (some projTurnThenMove) = .ok ([takeoffEvent,
      ⟨8, .COMMAND, some (.str "A"), none, some "cw 90"⟩,
      ⟨23 / 2, .COMMAND, some (.str "A"), none, some "forward 50"⟩,
      ⟨267 / 20, .LAND, some (.str "ALL"), some (.landText [.str "A"]),
        some "land"⟩], 267 / 20) ∧
    ∀ e ∈ [takeoffEvent,
      (⟨8, .COMMAND, some (.str "A"), none, some "cw 90"⟩ : Event),
      ⟨23 / 2, .COMMAND, some (.str "A"), none, some "forward 50"⟩,
      ⟨267 / 20, .LAND, some (.str "ALL"), some (.landText [.str "A"]),
        some "land"⟩], e.command ≠ some "right 50" :=
  ⟨rfl, by decide⟩

/--
C3, amended: `motion_movesteps` displaces the actor along the fixed depth
axis (`new_y = y + steps`), unaffected by prior rotate blocks — in the
two-block program "turn right `d`°, move `s` steps" the move's contribution
`planarMoveActions sn px py px (py + s)` does not depend on `d` at all, its
horizontal delta is zero (so it emits at most one depth-axis command,
`forward`/`back`), and a planar move in general emits at most two axis
commands.
-/
theorem c3_movesteps_amended :
    (∀ d s : ℚ,
      traverse (.str "A") (turnMoveBlocks d s) [] 3 (.str "t")
        (0, 0, INITIAL_HOVER_HEIGHT_CM) [] [] =
      .ok (⟨2 + |d| / 90 * (3 / 2),
          [⟨.str "A", "cw " ++ toString (pyInt d)⟩], false, .str "A"⟩ ::
        planarMoveActions (.str "A") 0 0 0 (0 + s),
        (0, 0 + s, INITIAL_HOVER_HEIGHT_CM), [])) ∧
    (∀ (sn : J) (px py ny : ℚ),
      (planarMoveActions sn px py px ny).length ≤ 1 ∧
      ∀ a ∈ planarMoveActions sn px py px ny, ∀ c ∈ a.commands,
        c.command =
          (if 0 < pyInt ((ny - py) * SCRATCH_TO_CM_RATE) then "forward "
            else "back ") ++
          toString (pyInt ((ny - py) * SCRATCH_TO_CM_RATE)).natAbs) ∧
    (∀ (sn : J) (px py nx ny : ℚ),
      (planarMoveActions sn px py nx ny).length ≤ 2) := by
  refine ⟨?_, ?_, ?_⟩
  · intro d s
    simp [traverse, turnMoveBlocks, lookupBlockId, lookupLast, List.lookup,
      J.truthy, J.eqStr, getAttrOpt, getInputValue_num_lit, liftE, Bind.bind,
      Except.bind, pyIndex, pyEqNum, Pure.pure, Except.pure]
  · intro sn px py ny
    have h0 : pyInt ((px - px) * SCRATCH_TO_CM_RATE) = 0 := by
      norm_num [pyInt, SCRATCH_TO_CM_RATE]
    constructor
    · simp only [planarMoveActions, h0]
      rw [if_neg (show ¬ (MIN_TELLO_MOVE ≤ |(0 : ℤ)|) by decide)]
      split <;> simp
    · intro a ha c hc
      simp only [planarMoveActions, h0] at ha
      rcases Classical.em
          (MIN_TELLO_MOVE ≤ |pyInt ((ny - py) * SCRATCH_TO_CM_RATE)|)
          with hdy | hdy
      · rw [if_neg (by decide), if_pos hdy] at ha
        simp only [List.nil_append, List.mem_singleton] at ha
        subst ha
        simp only [List.mem_singleton] at hc
        subst hc
        simp [posToCommand]
      · rw [if_neg (by decide), if_neg hdy] at ha
        simp at ha
  · intro sn px py nx ny
    simp only [planarMoveActions]
    split <;> split <;> simp

/-- Witness for C3's amended statement at `d = 90`, `s = 50`. -/
theorem c3_movesteps_amended_witness :
    traverse (.str "A") (turnMoveBlocks 90 50) [] 3 (.str "t")
      (0, 0, INITIAL_HOVER_HEIGHT_CM) [] [] =
    .ok (⟨2 + |(90 : ℚ)| / 90 * (3 / 2),
        [⟨.str "A", "cw " ++ toString (pyInt 90)⟩], false, .str "A"⟩ ::
      planarMoveActions (.str "A") 0 0 0 (0 + 50),
      (0, 0 + 50, INITIAL_HOVER_HEIGHT_CM), []) ∧
    (⟨.str "A", "forward 50"⟩ : Cmd).command =
      (if 0 < pyInt ((50 - 0) * SCRATCH_TO_CM_RATE) then "forward "
        else "back ") ++
      toString (pyInt ((50 - 0) * SCRATCH_TO_CM_RATE)).natAbs ∧
    (planarMoveActions (.str "A") 0 0 0 40).length ≤ 2 :=
  ⟨c3_movesteps_amended.1 90 50,
   (c3_movesteps_amended.2.1 (.str "A") 0 0 50).2
     ⟨7 / 4, [⟨.str "A", "forward 50"⟩], false, .str "A"⟩
     (by
       rw [show planarMoveActions (.str "A") 0 0 0 50 =
         [⟨7 / 4, [⟨.str "A", "forward 50"⟩], false, .str "A"⟩] from rfl]
       exact List.mem_singleton.mpr rfl)
     ⟨.str "A", "forward 50"⟩ (List.mem_singleton.mpr rfl),
   c3_movesteps_amended.2.2 (.str "A") 0 0 0 40⟩

@[simp]
theorem liftE_ok (a : α) : liftE (Except.ok a) = (.ok a : Except TErr α) :=
  rfl

@[simp]
theorem liftE_error (e : PExn) :
    liftE (Except.error e) = (.error (.exn e) : Except TErr α) := rfl

@[simp]
theorem except_ok_bind (a : α) (f : α → Except TErr β) :
    (Except.ok a >>= f) = f a := rfl

@[simp]
theorem except_error_bind (e : TErr) (f : α → Except TErr β) :
    ((Except.error e : Except TErr α) >>= f) = .error e := rfl

@[simp]
theorem exceptP_ok_bind (a : α) (f : α → Except PExn β) :
    (Except.ok a >>= f) = f a := rfl

@[simp]
theorem exceptP_error_bind (e : PExn) (f : α → Except PExn β) :
    ((Except.error e : Except PExn α) >>= f) = .error e := rfl

theorem findStartBlock_eq_null (entries : List (String × J))
    (h : ∀ p ∈ entries, isFlagBlock p.2 = false) :
    findStartBlock entries = .null := by
  unfold findStartBlock
  rw [List.find?_eq_none.mpr]
  intro p hp
  simp [h p hp]

theorem parseSpriteToActions_flag (fuel : Nat) (sn : J)
    (bls abl : List (String × J)) (iv : List (J × ℚ))
    (procs : List (J × ProcDef)) (acts : List Action) (flag : Bool)
    (h : parseSpriteToActions fuel sn bls abl iv procs = .ok (acts, flag))
    (hne : acts ≠ []) : flag = true := by
  simp only [parseSpriteToActions] at h
  split at h
  · injection h with h1
    injection h1 with h2 h3
    exact absurd h2.symm hne
  · split at h
    · cases h
    · injection h with h1
      injection h1 with h2 h3
      exact h3.symm

theorem spriteStep_noflag (fuel : Nat) (abl : List (String × J))
    (iv : List (J × ℚ)) (acc : List (J × List Action) × Bool) (t : J)
    (r : List (J × List Action) × Bool)
    (hnf : ∀ o, t = J.obj o → ∀ bo, lookupLast o "blocks" = some (J.obj bo) →
      ∀ p ∈ bo, isFlagBlock p.2 = false)
    (hstep : spriteStep fuel abl iv acc t = .ok r) : r = acc := by
  cases t with
  | obj o =>
    simp only [spriteStep, getAttrD, getAttrOpt, liftE_ok, except_ok_bind,
      exceptP_ok_bind] at hstep
    by_cases hstage : ((lookupLast o "isStage").getD (.bool false)).truthy
    · rw [if_pos hstage] at hstep
      injection hstep with h1
      exact h1.symm
    · rw [if_neg hstage] at hstep
      have hflags : ∀ entries,
          (lookupLast o "blocks").getD (.obj []) = J.obj entries →
          ∀ p ∈ entries, isFlagBlock p.2 = false := by
        intro entries hbj p hp
        cases hlb : lookupLast o "blocks" with
        | none =>
          rw [hlb] at hbj
          simp only [Option.getD_none] at hbj
          injection hbj with h2
          rw [← h2] at hp
          cases hp
        | some v =>
          rw [hlb] at hbj
          simp only [Option.getD_some] at hbj
          rw [hbj] at hlb
          exact hnf o rfl entries hlb p hp
      rcases hbj : (lookupLast o "blocks").getD (.obj []) with
        _ | b | q | s | l | entries <;>
        (rw [hbj] at hstep
         simp only [liftE_ok, liftE_error, except_ok_bind,
           except_error_bind] at hstep)
      · cases hstep
      · cases hstep
      · cases hstep
      · cases hstep
      · cases hstep
      · cases hpd : findProcedureDefs entries abl with
        | error e =>
          rw [hpd] at hstep
          simp only [liftE_error, except_error_bind] at hstep
          cases hstep
        | ok procs =>
          rw [hpd] at hstep
          have hps : parseSpriteToActions fuel
              ((lookupLast o "name").getD .null) entries abl iv procs =
              .ok ([], false) := by
            unfold parseSpriteToActions
            rw [findStartBlock_eq_null entries (hflags entries hbj)]
            simp [J.truthy]
          simp only [liftE_ok, except_ok_bind, hps, List.isEmpty_nil,
            Bool.not_true, Bool.or_false, Bool.false_eq_true, if_false]
            at hstep
          injection hstep with h1
          rw [← h1]
  | null => simp [spriteStep, getAttrD, getAttrOpt] at hstep
  | bool b => simp [spriteStep, getAttrD, getAttrOpt] at hstep
  | num q => simp [spriteStep, getAttrD, getAttrOpt] at hstep
  | str s => simp [spriteStep, getAttrD, getAttrOpt] at hstep
  | arr l => simp [spriteStep, getAttrD, getAttrOpt] at hstep

theorem foldlM_spriteStep_noflag (fuel : Nat) (abl : List (String × J))
    (iv : List (J × ℚ)) :
    ∀ (ts : List J) (acc r : List (J × List Action) × Bool),
    (∀ t ∈ ts, ∀ o, t = J.obj o →
      ∀ bo, lookupLast o "blocks" = some (J.obj bo) →
      ∀ p ∈ bo, isFlagBlock p.2 = false) →
    ts.foldlM (spriteStep fuel abl iv) acc = .ok r → r = acc := by
  intro ts
  induction ts with
  | nil =>
    intro acc r _ h
    simp only [List.foldlM_nil] at h
    injection h with h1
    exact h1.symm
  | cons t ts' ih =>
    intro acc r hnf h
    simp only [List.foldlM_cons] at h
    cases hstep : spriteStep fuel abl iv acc t with
    | error e =>
      rw [hstep] at h
      cases h
    | ok acc1 =>
      rw [hstep] at h
      simp only [except_ok_bind] at h
      have h1 : acc1 = acc :=
        spriteStep_noflag fuel abl iv acc t acc1
          (hnf t (List.mem_cons_self t ts')) hstep
      subst h1
      exact ih acc1 r (fun t' ht' => hnf t' (List.mem_cons_of_mem t ht')) h

/--
C1, counterexample: `projNoFlag` is a readable project (one actor, no
flag-click block anywhere), yet `parse_to_schedule` returns the singleton
TAKEOFF schedule with `total_time = TAKEOFF_DURATION = 8.0` — not the
claimed empty list with `total_time = 0.0`.
-/
theorem c1_no_flag_counterexample :
    parseToSchedule 1 (some projNoFlag) =
      .ok ([takeoffEvent], TAKEOFF_DURATION) ∧
    [takeoffEvent] ≠ ([] : List Event) ∧ TAKEOFF_DURATION ≠ (0 : ℚ) :=
  ⟨rfl, by simp, by norm_num [TAKEOFF_DURATION]⟩

/--
C1, amended: for every truthy (readable) project in which no actor's block
table contains a flag-click entry block, whenever `parse_to_schedule`
completes without an exception it returns the schedule consisting of exactly
the synthetic TAKEOFF event and `total_time = TAKEOFF_DURATION` (8.0); the
empty schedule with `total_time = 0.0` occurs only for a falsy/unreadable
project.  (Malformed procedure metadata can still raise even without a
flag-click block, so "without raising an exception" holds only conditionally.)
-/
theorem c1_no_flag_amended (fuel : Nat) (pd : J) (evs : List Event) (T : ℚ)
    (hpd : pd.truthy = true)
    (h : parseToSchedule fuel (some pd) = .ok (evs, T))
    (hnf : ∀ ts, projTargets pd = .ok ts → ∀ t ∈ ts, ∀ o, t = J.obj o →
      ∀ bo, lookupLast o "blocks" = some (J.obj bo) →
      ∀ p ∈ bo, isFlagBlock p.2 = false) :
    evs = [takeoffEvent] ∧ T = TAKEOFF_DURATION := by
  simp only [parseToSchedule, hpd, Bool.not_true, Bool.false_eq_true,
    if_false] at h
  cases hcp : collectPhase fuel pd with
  | error e => rw [hcp] at h; cases h
  | ok pr =>
    rw [hcp] at h
    unfold collectPhase at hcp
    cases hts : projTargets pd with
    | error e => rw [hts] at hcp; cases hcp
    | ok ts =>
      rw [hts] at hcp
      simp only [liftE_ok, except_ok_bind] at hcp
      cases hab : collectAllBlocks ts with
      | error e => rw [hab] at hcp; cases hcp
      | ok abl =>
        rw [hab] at hcp
        simp only [liftE_ok, except_ok_bind] at hcp
        cases hiv : initialVariableState ts with
        | error e => rw [hiv] at hcp; cases hcp
        | ok iv =>
          rw [hiv] at hcp
          simp only [liftE_ok, except_ok_bind] at hcp
          have hpr : pr = ([], false) :=
            foldlM_spriteStep_noflag fuel abl iv ts ([], false) pr
              (hnf ts hts) hcp
          subst hpr
          simp only [] at h
          have hsched : schedOfActions [] false =
              .ok ([takeoffEvent], TAKEOFF_DURATION) := rfl
          rw [hsched] at h
          simp only [liftE_ok] at h
          injection h with h1
          injection h1 with h2 h3
          exact ⟨h2.symm, h3.symm⟩

/-- Witness for C1's amended statement at the concrete flagless project. -/
theorem c1_no_flag_amended_witness :
    [takeoffEvent] = [takeoffEvent] ∧
    TAKEOFF_DURATION = TAKEOFF_DURATION :=
  c1_no_flag_amended 1 projNoFlag [takeoffEvent] TAKEOFF_DURATION rfl rfl
    (by
      intro ts hts
      rw [show projTargets projNoFlag =
        .ok [J.obj [("name", J.str "A"), ("blocks", J.obj [])]] from rfl] at hts
      injection hts with h1
      subst h1
      intro t ht o hto bo hbo p hp
      simp only [List.mem_singleton] at ht
      subst ht
      injection hto with h2
      subst h2
      rw [show lookupLast [("name", J.str "A"), ("blocks", J.obj [])]
        "blocks" = some (J.obj []) from rfl] at hbo
      injection hbo with h3
      injection h3 with h4
      rw [← h4] at hp
      cases hp)

theorem totalLen_roundRest_le (l : List (J × List Action)) :
    totalLen (roundRest l) ≤ totalLen l := by
  induction l with
  | nil => simp [roundRest, totalLen]
  | cons p r ih =>
    simp only [roundRest, totalLen, List.map_cons, List.sum_cons] at ih ⊢
    have : p.2.tail.length ≤ p.2.length := by cases p.2 <;> simp
    omega

theorem totalLen_roundRest_lt (l : List (J × List Action))
    (h : l.any (fun p => !p.2.isEmpty) = true) :
    totalLen (roundRest l) < totalLen l := by
  induction l with
  | nil => simp at h
  | cons p r ih =>
    simp only [List.any_cons, Bool.or_eq_true] at h
    have htail : p.2.tail.length ≤ p.2.length := by cases p.2 <;> simp
    have hr_le : totalLen (roundRest r) ≤ totalLen r := totalLen_roundRest_le r
    have hexp : totalLen (roundRest (p :: r)) =
        p.2.tail.length + totalLen (roundRest r) := by
      simp [roundRest, totalLen]
    have hexp2 : totalLen (p :: r) = p.2.length + totalLen r := by
      simp [totalLen]
    rcases h with h1 | h2
    · have hlt : p.2.tail.length < p.2.length := by
        cases hq : p.2 with
        | nil => rw [hq] at h1; simp at h1
        | cons a tl => simp
      omega
    · have := ih h2
      omega

theorem any_eq_false_of_totalLen_zero (l : List (J × List Action))
    (h : totalLen l = 0) : l.any (fun p => !p.2.isEmpty) = false := by
  induction l with
  | nil => simp
  | cons p r ih =>
    simp only [totalLen, List.map_cons, List.sum_cons] at h
    have h1 : p.2.length = 0 := by omega
    have h2 : totalLen r = 0 := by simp [totalLen]; omega
    simp [List.any_cons, ih h2, List.isEmpty_iff, List.length_eq_zero.mp h1]

theorem stepLoopAux_congr : ∀ (n m : ℕ) (l : List (J × List Action)) (t : ℚ),
    totalLen l ≤ n → totalLen l ≤ m → stepLoopAux n l t = stepLoopAux m l t := by
  intro n
  induction n with
  | zero =>
    intro m l t hn _
    have h0 : totalLen l = 0 := Nat.le_zero.mp hn
    have hany := any_eq_false_of_totalLen_zero l h0
    cases m with
    | zero => rfl
    | succ m' => simp [stepLoopAux, hany]
  | succ n' ih =>
    intro m l t hn hm
    cases m with
    | zero =>
      have h0 : totalLen l = 0 := Nat.le_zero.mp hm
      have hany := any_eq_false_of_totalLen_zero l h0
      simp [stepLoopAux, hany]
    | succ m' =>
      by_cases hany : l.any (fun p => !p.2.isEmpty) = true
      · have hlt := totalLen_roundRest_lt l hany
        simp only [stepLoopAux, hany, if_true]
        rw [ih m' (roundRest l) (t + roundMax l) (by omega) (by omega)]
      · simp [stepLoopAux, hany]

theorem stepLoop_round (l : List (J × List Action)) (t : ℚ)
    (h : l.any (fun p => !p.2.isEmpty) = true) :
    stepLoop l t =
      (roundEvents t (roundMax l) (roundPopped l) ++
        (stepLoop (roundRest l) (t + roundMax l)).1,
       (stepLoop (roundRest l) (t + roundMax l)).2) := by
  have hpos : 0 < totalLen l := by
    by_contra hc
    have h0 : totalLen l = 0 := by omega
    rw [any_eq_false_of_totalLen_zero l h0] at h
    cases h
  unfold stepLoop
  obtain ⟨n, hn⟩ : ∃ n, totalLen l = n + 1 :=
    ⟨totalLen l - 1, by omega⟩
  rw [hn]
  simp only [stepLoopAux, h, if_true]
  have hle : totalLen (roundRest l) ≤ n := by
    have := totalLen_roundRest_lt l h
    omega
  rw [stepLoopAux_congr n (totalLen (roundRest l)) (roundRest l)
    (t + roundMax l) hle le_rfl]

theorem stepLoop_exhausted (l : List (J × List Action)) (t : ℚ)
    (h : l.any (fun p => !p.2.isEmpty) = false) :
    stepLoop l t = ([], t) := by
  unfold stepLoop
  cases hn : totalLen l with
  | zero => rfl
  | succ n => simp [stepLoopAux, h]

theorem actionEvents_time (t maxDur : ℚ) (a : Action) :
    ∀ e ∈ actionEvents t maxDur a, e.time = t := by
  intro e he
  simp only [actionEvents, List.mem_append, List.mem_map] at he
  rcases he with (he | he) | he
  · split at he <;> simp_all
  · split at he <;> simp_all
  · obtain ⟨c, _, hc⟩ := he
    rw [← hc]

theorem actionEvents_type (t maxDur : ℚ) (a : Action) :
    ∀ e ∈ actionEvents t maxDur a,
      e.type = .WARNING ∨ e.type = .WAIT ∨ e.type = .COMMAND := by
  intro e he
  simp only [actionEvents, List.mem_append, List.mem_map] at he
  rcases he with (he | he) | he
  · split at he <;> simp_all
  · split at he <;> simp_all
  · obtain ⟨c, _, hc⟩ := he
    rw [← hc]
    simp

theorem roundEvents_mem (t maxDur : ℚ) (popped : List Action) (e : Event) :
    e ∈ roundEvents t maxDur popped ↔
      ∃ a ∈ popped, e ∈ actionEvents t maxDur a := by
  induction popped with
  | nil => simp [roundEvents]
  | cons a rest ih =>
    simp only [roundEvents, List.foldr_cons, List.mem_append] at ih ⊢
    rw [ih]
    simp

theorem foldl_max_init_le (xs : List Action) :
    ∀ init : ℚ, init ≤ xs.foldl (fun m a => max m a.duration) init := by
  induction xs with
  | nil => intro init; simp
  | cons a rest ih =>
    intro init
    simp only [List.foldl_cons]
    exact le_trans (le_max_left init a.duration) (ih _)

theorem foldl_max_ge_mem (xs : List Action) :
    ∀ (init : ℚ), ∀ a ∈ xs,
      a.duration ≤ xs.foldl (fun m a => max m a.duration) init := by
  induction xs with
  | nil => simp
  | cons b rest ih =>
    intro init a ha
    simp only [List.mem_cons] at ha
    simp only [List.foldl_cons]
    rcases ha with rfl | ha
    · exact le_trans (le_max_right init a.duration) (foldl_max_init_le _ _)
    · exact ih _ a ha

theorem foldl_max_cases (xs : List Action) :
    ∀ init : ℚ, xs.foldl (fun m a => max m a.duration) init = init ∨
      ∃ a ∈ xs, xs.foldl (fun m a => max m a.duration) init = a.duration := by
  induction xs with
  | nil => intro init; simp
  | cons b rest ih =>
    intro init
    rcases ih (max init b.duration) with h | ⟨a, ha, h⟩
    · simp only [List.foldl_cons]
      rcases max_cases init b.duration with ⟨hm, _⟩ | ⟨hm, _⟩
      · left; rw [h, hm]
      · right; exact ⟨b, List.mem_cons_self b rest, by rw [h, hm]⟩
    · right
      exact ⟨a, List.mem_cons_of_mem b ha, by simpa [List.foldl_cons] using h⟩

theorem roundMax_nonneg (l : List (J × List Action)) : 0 ≤ roundMax l :=
  foldl_max_init_le _ 0

theorem roundPopped_head_mem (l : List (J × List Action)) :
    ∀ p ∈ l, ∀ (a : Action) (tl : List Action), p.2 = a :: tl →
      a ∈ roundPopped l := by
  intro p hp a tl hconf
  simp only [roundPopped, List.mem_filterMap]
  exact ⟨p, hp, by rw [hconf]; rfl⟩

theorem roundPopped_length (l : List (J × List Action)) :
    (roundPopped l).length = (l.filter fun p => !p.2.isEmpty).length := by
  induction l with
  | nil => simp [roundPopped]
  | cons p r ih =>
    cases hq : p.2 with
    | nil => simp [roundPopped, List.filter_cons, hq] at ih ⊢; exact ih
    | cons a tl =>
      simp [roundPopped, List.filter_cons, hq] at ih ⊢
      exact ih

theorem stepLoopAux_le_snd : ∀ (n : ℕ) (l : List (J × List Action)) (t : ℚ),
    t ≤ (stepLoopAux n l t).2 := by
  intro n
  induction n with
  | zero => intro l t; simp [stepLoopAux]
  | succ n' ih =>
    intro l t
    by_cases hany : l.any (fun p => !p.2.isEmpty) = true
    · simp only [stepLoopAux, hany, if_true]
      calc t ≤ t + roundMax l := by
              have := roundMax_nonneg l
              linarith
        _ ≤ (stepLoopAux n' (roundRest l) (t + roundMax l)).2 := ih _ _
    · simp [stepLoopAux, hany]

theorem stepLoopAux_mem_bound : ∀ (n : ℕ) (l : List (J × List Action))
    (t : ℚ) (e : Event), e ∈ (stepLoopAux n l t).1 →
    t ≤ e.time ∧ e.time ≤ (stepLoopAux n l t).2 := by
  intro n
  induction n with
  | zero => intro l t e he; simp [stepLoopAux] at he
  | succ n' ih =>
    intro l t e he
    by_cases hany : l.any (fun p => !p.2.isEmpty) = true
    · simp only [stepLoopAux, hany, if_true] at he ⊢
      rcases List.mem_append.mp he with hr | hrest
      · rw [roundEvents_mem] at hr
        obtain ⟨a, _, hea⟩ := hr
        have ht := actionEvents_time t (roundMax l) a e hea
        rw [ht]
        refine ⟨le_rfl, ?_⟩
        calc t ≤ t + roundMax l := by
                have := roundMax_nonneg l
                linarith
          _ ≤ (stepLoopAux n' (roundRest l) (t + roundMax l)).2 :=
              stepLoopAux_le_snd _ _ _
      · have := ih (roundRest l) (t + roundMax l) e hrest
        have hm := roundMax_nonneg l
        exact ⟨by linarith [this.1], this.2⟩
    · simp [stepLoopAux, hany] at he

theorem stepLoopAux_mem_type : ∀ (n : ℕ) (l : List (J × List Action))
    (t : ℚ) (e : Event), e ∈ (stepLoopAux n l t).1 →
    e.type = .WARNING ∨ e.type = .WAIT ∨ e.type = .COMMAND := by
  intro n
  induction n with
  | zero => intro l t e he; simp [stepLoopAux] at he
  | succ n' ih =>
    intro l t e he
    by_cases hany : l.any (fun p => !p.2.isEmpty) = true
    · simp only [stepLoopAux, hany, if_true] at he
      rcases List.mem_append.mp he with hr | hrest
      · rw [roundEvents_mem] at hr
        obtain ⟨a, _, hea⟩ := hr
        exact actionEvents_type t (roundMax l) a e hea
      · exact ih (roundRest l) (t + roundMax l) e hrest
    · simp [stepLoopAux, hany] at he

theorem evLe_weaken (a b : Event) (h : evLe a b) :
    a.time ≤ b.time ∧
      (a.time = b.time → b.type = .WARNING → a.type = .WARNING) := by
  rcases h with h1 | ⟨h1, h2⟩
  · exact ⟨le_of_lt h1, fun he _ => absurd (he ▸ h1) (lt_irrefl _)⟩
  · refine ⟨le_of_eq h1, fun _ hb => ?_⟩
    unfold pri at h2
    rw [if_pos hb] at h2
    by_contra ha
    rw [if_neg ha] at h2
    omega

theorem stepLoop_le_snd (l : List (J × List Action)) (t : ℚ) :
    t ≤ (stepLoop l t).2 :=
  stepLoopAux_le_snd _ _ _

theorem stepLoop_mem_bound (l : List (J × List Action)) (t : ℚ) (e : Event)
    (he : e ∈ (stepLoop l t).1) : t ≤ e.time ∧ e.time ≤ (stepLoop l t).2 :=
  stepLoopAux_mem_bound _ _ _ _ he

theorem stepLoop_mem_type (l : List (J × List Action)) (t : ℚ) (e : Event)
    (he : e ∈ (stepLoop l t).1) :
    e.type = .WARNING ∨ e.type = .WAIT ∨ e.type = .COMMAND :=
  stepLoopAux_mem_type _ _ _ _ he

theorem schedOfActions_bound (allA : List (J × List Action)) (flag : Bool)
    (evs : List Event) (T : ℚ)
    (h : schedOfActions allA flag = .ok (evs, T)) :
    ∀ e ∈ evs, e.time ≤ T := by
  have htake : (0 : ℚ) ≤ TAKEOFF_DURATION := by norm_num [TAKEOFF_DURATION]
  have hstep : TAKEOFF_DURATION ≤ (stepLoop allA TAKEOFF_DURATION).2 :=
    stepLoop_le_snd _ _
  simp only [schedOfActions] at h
  by_cases hc : (flag = true ∧
      (!(List.map (fun x => x.1) allA).isEmpty) = true)
  · rw [if_pos hc] at h
    by_cases hj : pyJoinOK (List.map (fun x => x.1) allA) = true
    · rw [if_pos hj] at h
      simp only [] at h
      injection h with h1
      injection h1 with h2 h3
      subst h2
      subst h3
      intro e he
      have he2 := (List.perm_insertionSort evLe _).mem_iff.mp he
      rcases List.mem_append.mp he2 with hpre | hland
      · rcases List.mem_cons.mp hpre with rfl | hse
        · show (0 : ℚ) ≤ _ + 1 / 10
          linarith
        · have hb := stepLoop_mem_bound allA TAKEOFF_DURATION e hse
          show e.time ≤ _ + 1 / 10
          linarith [hb.2]
      · simp only [List.mem_singleton] at hland
        rw [hland]
    · rw [if_neg hj] at h
      cases h
  · rw [if_neg hc] at h
    simp only [] at h
    injection h with h1
    injection h1 with h2 h3
    subst h2
    subst h3
    intro e he
    have he2 := (List.perm_insertionSort evLe _).mem_iff.mp he
    rcases List.mem_cons.mp he2 with rfl | hse
    · exact htake.trans hstep
    · exact (stepLoop_mem_bound allA TAKEOFF_DURATION e hse).2

theorem schedOfActions_sorted (allA : List (J × List Action)) (flag : Bool)
    (evs : List Event) (T : ℚ)
    (h : schedOfActions allA flag = .ok (evs, T)) :
    List.Sorted evLe evs := by
  simp only [schedOfActions] at h
  by_cases hc : (flag = true ∧
      (!(List.map (fun x => x.1) allA).isEmpty) = true)
  · rw [if_pos hc] at h
    by_cases hj : pyJoinOK (List.map (fun x => x.1) allA) = true
    · rw [if_pos hj] at h
      simp only [] at h
      injection h with h1
      injection h1 with h2 h3
      rw [← h2]
      exact List.sorted_insertionSort evLe _
    · rw [if_neg hj] at h
      cases h
  · rw [if_neg hc] at h
    simp only [] at h
    injection h with h1
    injection h1 with h2 h3
    rw [← h2]
    exact List.sorted_insertionSort evLe _

theorem sorted_getLast_of_max : ∀ (l : List Event) (x : Event),
    List.Sorted evLe l → x ∈ l → (∀ e ∈ l, e = x ∨ e.time < x.time) →
    l.getLast? = some x := by
  intro l
  induction l with
  | nil => intro x _ hx _; cases hx
  | cons a l2 ih =>
    intro x hs hx hmax
    cases l2 with
    | nil =>
      simp only [List.mem_singleton] at hx
      rw [hx]
      rfl
    | cons b l3 =>
      rw [List.getLast?_cons_cons]
      have hx2 : x ∈ b :: l3 := by
        rcases List.mem_cons.mp hx with rfl | hmem
        · rcases hmax b (List.mem_cons_of_mem _ (List.mem_cons_self b l3))
            with rfl | hlt
          · exact List.mem_cons_self b l3
          · have hab : evLe x b :=
              (List.sorted_cons.mp hs).1 b (List.mem_cons_self b l3)
            have := (evLe_weaken x b hab).1
            exact absurd hlt (by linarith)
        · exact hmem
      exact ih x (List.sorted_cons.mp hs).2 hx2
        (fun e he => hmax e (List.mem_cons_of_mem _ he))

theorem spriteStep_flag_invariant (fuel : Nat) (abl : List (String × J))
    (iv : List (J × ℚ)) (acc : List (J × List Action) × Bool) (t : J)
    (r : List (J × List Action) × Bool)
    (hstep : spriteStep fuel abl iv acc t = .ok r)
    (hinv : acc.1 ≠ [] → acc.2 = true) : r.1 ≠ [] → r.2 = true := by
  cases t with
  | obj o =>
    simp only [spriteStep, getAttrD, getAttrOpt, liftE_ok, except_ok_bind,
      exceptP_ok_bind] at hstep
    by_cases hstage : ((lookupLast o "isStage").getD (.bool false)).truthy
    · rw [if_pos hstage] at hstep
      injection hstep with h1
      rw [← h1]
      exact hinv
    · rw [if_neg hstage] at hstep
      rcases hbj : (lookupLast o "blocks").getD (.obj []) with
        _ | b | q | s | l | entries <;>
        (rw [hbj] at hstep
         simp only [liftE_ok, liftE_error, except_ok_bind,
           except_error_bind] at hstep)
      · cases hstep
      · cases hstep
      · cases hstep
      · cases hstep
      · cases hstep
      · cases hpd : findProcedureDefs entries abl with
        | error e =>
          rw [hpd] at hstep
          simp only [liftE_error, except_error_bind] at hstep
          cases hstep
        | ok procs =>
          rw [hpd] at hstep
          simp only [liftE_ok, except_ok_bind] at hstep
          cases hps : parseSpriteToActions fuel
              ((lookupLast o "name").getD .null) entries abl iv procs with
          | error e => rw [hps] at hstep; cases hstep
          | ok res =>
            rw [hps] at hstep
            simp only [except_ok_bind] at hstep
            by_cases hre : (!res.1.isEmpty) = true
            · rw [if_pos hre] at hstep
              cases hda : dictSetActs acc.1
                  ((lookupLast o "name").getD .null) res.1 with
              | error e =>
                rw [hda] at hstep
                simp only [liftE_error, except_error_bind] at hstep
                cases hstep
              | ok m =>
                rw [hda] at hstep
                simp only [liftE_ok, except_ok_bind] at hstep
                injection hstep with h1
                rw [← h1]
                intro _
                have hrne : res.1 ≠ [] := by
                  simpa [List.isEmpty_iff] using hre
                have := parseSpriteToActions_flag fuel
                  ((lookupLast o "name").getD .null) entries abl iv procs
                  res.1 res.2 (by rw [hps]) hrne
                simp [this]
            · rw [if_neg hre] at hstep
              injection hstep with h1
              rw [← h1]
              intro hne
              simp only at hne
              rw [hinv hne]
              simp
  | null => simp [spriteStep, getAttrD, getAttrOpt] at hstep
  | bool b => simp [spriteStep, getAttrD, getAttrOpt] at hstep
  | num q => simp [spriteStep, getAttrD, getAttrOpt] at hstep
  | str s => simp [spriteStep, getAttrD, getAttrOpt] at hstep
  | arr l => simp [spriteStep, getAttrD, getAttrOpt] at hstep

theorem foldlM_spriteStep_flag (fuel : Nat) (abl : List (String × J))
    (iv : List (J × ℚ)) :
    ∀ (ts : List J) (acc r : List (J × List Action) × Bool),
    ts.foldlM (spriteStep fuel abl iv) acc = .ok r →
    (acc.1 ≠ [] → acc.2 = true) → r.1 ≠ [] → r.2 = true := by
  intro ts
  induction ts with
  | nil =>
    intro acc r h hinv
    simp only [List.foldlM_nil] at h
    injection h with h1
    rw [← h1]
    exact hinv
  | cons t ts' ih =>
    intro acc r h hinv
    simp only [List.foldlM_cons] at h
    cases hstep : spriteStep fuel abl iv acc t with
    | error e => rw [hstep] at h; cases h
    | ok acc1 =>
      rw [hstep] at h
      simp only [except_ok_bind] at h
      exact ih acc1 r h
        (spriteStep_flag_invariant fuel abl iv acc t acc1 hstep hinv)

theorem collectPhase_inv (fuel : Nat) (pd : J)
    (r : List (J × List Action) × Bool)
    (h : collectPhase fuel pd = .ok r) :
    ∃ ts abl iv, projTargets pd = .ok ts ∧ collectAllBlocks ts = .ok abl ∧
      initialVariableState ts = .ok iv ∧
      actionsPhase fuel ts abl iv = .ok r := by
  unfold collectPhase at h
  cases hts : projTargets pd with
  | error e => rw [hts] at h; cases h
  | ok ts =>
    rw [hts] at h
    simp only [liftE_ok, except_ok_bind] at h
    cases hab : collectAllBlocks ts with
    | error e => rw [hab] at h; cases h
    | ok abl =>
      rw [hab] at h
      simp only [liftE_ok, except_ok_bind] at h
      cases hiv : initialVariableState ts with
      | error e => rw [hiv] at h; cases h
      | ok iv =>
        rw [hiv] at h
        simp only [liftE_ok, except_ok_bind] at h
        exact ⟨ts, abl, iv, rfl, hab, hiv, h⟩

theorem collectPhase_flag (fuel : Nat) (pd : J)
    (allA : List (J × List Action)) (flag : Bool)
    (h : collectPhase fuel pd = .ok (allA, flag)) (hne : allA ≠ []) :
    flag = true := by
  obtain ⟨ts, abl, iv, _, _, _, hap⟩ := collectPhase_inv fuel pd (allA, flag) h
  exact foldlM_spriteStep_flag fuel abl iv ts ([], false) (allA, flag) hap
    (fun hc => absurd rfl hc) hne

/--
C6, counterexample: in `projNoName` the single target has no `name` key, so
the actor is recorded under the `None` sprite name; the per-sprite phase
still succeeds with one actor holding one action — "at least one actor
produced a non-empty Action list" holds — yet `parse_to_schedule` raises
`TypeError` at the `', '.join(drones_with_actions)` building the LAND
event's text (line 227) instead of returning a schedule whose final event is
the LAND event.
-/
theorem c6_noname_counterexample :
    collectPhase 3 projNoName =
      .ok ([(J.null, [⟨31 / 20, [⟨J.null, "right 40"⟩], false, J.null⟩])],
        true) ∧
    parseToSchedule 3 (some projNoName) = .error (.exn .typeErr) :=
  ⟨rfl, rfl⟩

/--
C6, amended: whenever the per-sprite phase produced at least one actor with
actions and every recorded actor name is a string (otherwise the `', '.join`
of the LAND text raises `TypeError` — see the counterexample above), the
sorted schedule's final event is the single synthetic LAND event — command
`"land"`, target `"ALL"`, text naming exactly the actors that had actions —
stamped at the pre-landing `master_time` plus the 0.1 s epsilon, and its
time equals the returned `total_time`.
-/
theorem c6_landing_bracket (fuel : Nat) (pd : J)
    (allA : List (J × List Action)) (flag : Bool)
    (hpd : pd.truthy = true)
    (hcp : collectPhase fuel pd = .ok (allA, flag))
    (hne : allA ≠ [])
    (hstr : pyJoinOK (allA.map (·.1)) = true) :
    ∃ evs : List Event,
      parseToSchedule fuel (some pd) =
        .ok (evs, (stepLoop allA TAKEOFF_DURATION).2 + 1 / 10) ∧
      evs.getLast? = some ⟨(stepLoop allA TAKEOFF_DURATION).2 + 1 / 10,
        .LAND, some (.str "ALL"), some (.landText (allA.map (·.1))),
        some "land"⟩ ∧
      (∀ e ∈ evs, e.type = .LAND →
        e = ⟨(stepLoop allA TAKEOFF_DURATION).2 + 1 / 10, .LAND,
          some (.str "ALL"), some (.landText (allA.map (·.1))),
          some "land"⟩) := by
  have hflag : flag = true := collectPhase_flag fuel pd allA flag hcp hne
  subst hflag
  have hnames : (!(List.map (fun x => x.1) allA).isEmpty) = true := by
    cases allA with
    | nil => exact absurd rfl hne
    | cons p r => simp
  set land : Event := ⟨(stepLoop allA TAKEOFF_DURATION).2 + 1 / 10, .LAND,
    some (.str "ALL"), some (.landText (allA.map (·.1))), some "land"⟩
    with hland
  have hsched : schedOfActions allA true =
      .ok (List.insertionSort evLe
        ((takeoffEvent :: (stepLoop allA TAKEOFF_DURATION).1) ++ [land]),
       (stepLoop allA TAKEOFF_DURATION).2 + 1 / 10) := by
    simp [schedOfActions, hnames, hstr, hland]
  have hparse : parseToSchedule fuel (some pd) =
      liftE (schedOfActions allA true) := by
    simp only [parseToSchedule, hpd, Bool.not_true, Bool.false_eq_true,
      if_false]
    rw [hcp]
  refine ⟨List.insertionSort evLe
      ((takeoffEvent :: (stepLoop allA TAKEOFF_DURATION).1) ++ [land]),
    ?_, ?_, ?_⟩
  · rw [hparse, hsched]
    rfl
  · apply sorted_getLast_of_max _ land (List.sorted_insertionSort evLe _)
    · exact (List.perm_insertionSort evLe _).mem_iff.mpr
        (List.mem_append.mpr (Or.inr (List.mem_singleton.mpr rfl)))
    · intro e he
      have he2 := (List.perm_insertionSort evLe _).mem_iff.mp he
      have hr2 : TAKEOFF_DURATION ≤ (stepLoop allA TAKEOFF_DURATION).2 :=
        stepLoop_le_snd _ _
      have htd : (0 : ℚ) ≤ TAKEOFF_DURATION := by
        norm_num [TAKEOFF_DURATION]
      rcases List.mem_append.mp he2 with hpre | hl
      · rcases List.mem_cons.mp hpre with rfl | hse
        · right
          show (0 : ℚ) < _ + 1 / 10
          linarith
        · right
          have := (stepLoop_mem_bound allA TAKEOFF_DURATION e hse).2
          show e.time < _ + 1 / 10
          linarith
      · left
        exact List.mem_singleton.mp hl
  · intro e he htype
    have he2 := (List.perm_insertionSort evLe _).mem_iff.mp he
    rcases List.mem_append.mp he2 with hpre | hl
    · rcases List.mem_cons.mp hpre with rfl | hse
      · cases htype
      · rcases stepLoop_mem_type allA TAKEOFF_DURATION e hse with h | h | h <;>
          rw [htype] at h <;> cases h
    · exact List.mem_singleton.mp hl

/-- Witness for C6's amended statement at the one-move project. -/
theorem c6_landing_bracket_witness :
    ∃ evs : List Event,
      parseToSchedule 3 (some projOneMove) =
        .ok (evs, (stepLoop [(J.str "A",
          [⟨31 / 20, [⟨.str "A", "right 40"⟩], false, .str "A"⟩])]
          TAKEOFF_DURATION).2 + 1 / 10) ∧
      evs.getLast? = some ⟨(stepLoop [(J.str "A",
          [⟨31 / 20, [⟨.str "A", "right 40"⟩], false, .str "A"⟩])]
          TAKEOFF_DURATION).2 + 1 / 10,
        .LAND, some (.str "ALL"),
        some (.landText [J.str "A"]), some "land"⟩ ∧
      (∀ e ∈ evs, e.type = .LAND →
        e = ⟨(stepLoop [(J.str "A",
            [⟨31 / 20, [⟨.str "A", "right 40"⟩], false, .str "A"⟩])]
            TAKEOFF_DURATION).2 + 1 / 10, .LAND,
          some (.str "ALL"),
          some (.landText [J.str "A"]), some "land"⟩) :=
  c6_landing_bracket 3 projOneMove
    [(J.str "A", [⟨31 / 20, [⟨.str "A", "right 40"⟩], false, .str "A"⟩])]
    true rfl rfl (by simp) rfl

/--
C9: every schedule produced by `parse_to_schedule` is, after the mandated
sort, pairwise ordered — event times are non-decreasing, and at a shared
time offset a WARNING event can never be preceded by a non-WARNING event —
and `total_time` bounds every event's time.
-/
theorem c9_schedule_invariants (fuel : Nat) (pdO : Option J)
    (evs : List Event) (T : ℚ)
    (h : parseToSchedule fuel pdO = .ok (evs, T)) :
    List.Pairwise (fun a b : Event => a.time ≤ b.time ∧
      (a.time = b.time → b.type = .WARNING → a.type = .WARNING)) evs ∧
    ∀ e ∈ evs, e.time ≤ T := by
  have key : ∀ (allA : List (J × List Action)) (flag : Bool),
      schedOfActions allA flag = .ok (evs, T) →
      List.Pairwise (fun a b : Event => a.time ≤ b.time ∧
        (a.time = b.time → b.type = .WARNING → a.type = .WARNING)) evs ∧
      ∀ e ∈ evs, e.time ≤ T := by
    intro allA flag heq
    constructor
    · exact (schedOfActions_sorted allA flag evs T heq).imp
        (fun hab => evLe_weaken _ _ hab)
    · exact schedOfActions_bound allA flag evs T heq
  cases pdO with
  | none =>
    simp only [parseToSchedule] at h
    injection h with h1
    injection h1 with h2 h3
    subst h2
    constructor
    · simp
    · intro e he; cases he
  | some pd =>
    simp only [parseToSchedule] at h
    by_cases hpd : pd.truthy
    · rw [hpd] at h
      simp only [Bool.not_true, Bool.false_eq_true, if_false] at h
      cases hcp : collectPhase fuel pd with
      | error e => rw [hcp] at h; cases h
      | ok pr =>
        rw [hcp] at h
        simp only [] at h
        cases hs : schedOfActions pr.1 pr.2 with
        | error e =>
          rw [hs] at h
          simp only [liftE_error] at h
          cases h
        | ok r =>
          rw [hs] at h
          simp only [liftE_ok] at h
          injection h with h1
          exact key pr.1 pr.2 (by rw [hs, h1])
    · simp only [Bool.not_eq_true] at hpd
      rw [hpd] at h
      simp only [Bool.not_false, if_true] at h
      injection h with h1
      injection h1 with h2 h3
      subst h2
      constructor
      · simp
      · intro e he; cases he

/-- Witness for C9 at the one-move project. -/
theorem c9_schedule_invariants_witness :
    List.Pairwise (fun a b : Event => a.time ≤ b.time ∧
      (a.time = b.time → b.type = .WARNING → a.type = .WARNING))
      [takeoffEvent,
        ⟨8, .COMMAND, some (.str "A"), none, some "right 40"⟩,
        ⟨193 / 20, .LAND, some (.str "ALL"), some (.landText [.str "A"]),
          some "land"⟩] ∧
    ∀ e ∈ [takeoffEvent,
        (⟨8, .COMMAND, some (.str "A"), none, some "right 40"⟩ : Event),
        ⟨193 / 20, .LAND, some (.str "ALL"), some (.landText [.str "A"]),
          some "land"⟩], e.time ≤ (193 / 20 : ℚ) :=
  c9_schedule_invariants 3 (some projOneMove) _ _ rfl

/--
C4: in every round of the stepping loop, the head action is popped from every
actor with a non-empty list (exhausted actors contribute nothing: the popped
actions are exactly one per non-empty entry), every event emitted in the
round is stamped with the current `master_time`, and `master_time` advances
by exactly the round's maximum popped duration (the fold of `max` over the
popped durations, which for non-negative durations is attained by one of
them).
-/
theorem c4_lockstep_round (l : List (J × List Action)) (t : ℚ)
    (h : l.any (fun p => !p.2.isEmpty) = true) :
    stepLoop l t =
      (roundEvents t (roundMax l) (roundPopped l) ++
        (stepLoop (roundRest l) (t + roundMax l)).1,
       (stepLoop (roundRest l) (t + roundMax l)).2) ∧
    (∀ e ∈ roundEvents t (roundMax l) (roundPopped l), e.time = t) ∧
    (∀ p ∈ l, ∀ (a : Action) (tl : List Action), p.2 = a :: tl →
      a ∈ roundPopped l) ∧
    (roundPopped l).length = (l.filter fun p => !p.2.isEmpty).length ∧
    (∀ a ∈ roundPopped l, a.duration ≤ roundMax l) ∧
    ((∀ a ∈ roundPopped l, 0 ≤ a.duration) →
      ∃ a ∈ roundPopped l, roundMax l = a.duration) := by
  refine ⟨stepLoop_round l t h, ?_, roundPopped_head_mem l,
    roundPopped_length l, ?_, ?_⟩
  · intro e he
    rw [roundEvents_mem] at he
    obtain ⟨a, _, hea⟩ := he
    exact actionEvents_time t (roundMax l) a e hea
  · intro a ha
    exact foldl_max_ge_mem _ 0 a ha
  · intro hnn
    rcases foldl_max_cases (roundPopped l) 0 with h0 | ⟨a, ha, hval⟩
    · -- the fold equals the initial 0: some actor is non-empty, so some
      -- action was popped, and its non-negative duration must equal 0
      have hne : roundPopped l ≠ [] := by
        simp only [List.any_eq_true, Bool.not_eq_true'] at h
        obtain ⟨p, hp, hpe⟩ := h
        cases hq : p.2 with
        | nil => rw [hq] at hpe; simp at hpe
        | cons a tl =>
          have := roundPopped_head_mem l p hp a tl hq
          exact List.ne_nil_of_mem this
      obtain ⟨a, ha⟩ := List.exists_mem_of_ne_nil _ hne
      refine ⟨a, ha, le_antisymm ?_ ?_⟩
      · have hz : roundMax l = 0 := h0
        rw [hz]
        exact hnn a ha
      · exact foldl_max_ge_mem _ 0 a ha
    · exact ⟨a, ha, hval⟩

/-- Witness for C4: two actors with single actions of durations 2.0 s and
5.0 s — the step duration is 5.0 s and both actors' events share one
`master_time`. -/
theorem c4_lockstep_round_witness :
    stepLoop [(J.str "A", [⟨2, [], true, .str "A"⟩]),
        (J.str "B", [⟨5, [], true, .str "B"⟩])] 8 =
      (roundEvents 8
        (roundMax [(J.str "A", [⟨2, [], true, .str "A"⟩]),
          (J.str "B", [⟨5, [], true, .str "B"⟩])])
        (roundPopped [(J.str "A", [⟨2, [], true, .str "A"⟩]),
          (J.str "B", [⟨5, [], true, .str "B"⟩])]) ++
        (stepLoop (roundRest [(J.str "A", [⟨2, [], true, .str "A"⟩]),
          (J.str "B", [⟨5, [], true, .str "B"⟩])])
          (8 + roundMax [(J.str "A", [⟨2, [], true, .str "A"⟩]),
            (J.str "B", [⟨5, [], true, .str "B"⟩])])).1,
       (stepLoop (roundRest [(J.str "A", [⟨2, [], true, .str "A"⟩]),
          (J.str "B", [⟨5, [], true, .str "B"⟩])])
          (8 + roundMax [(J.str "A", [⟨2, [], true, .str "A"⟩]),
            (J.str "B", [⟨5, [], true, .str "B"⟩])])).2) ∧
    (∀ e ∈ roundEvents 8
        (roundMax [(J.str "A", [⟨2, [], true, .str "A"⟩]),
          (J.str "B", [⟨5, [], true, .str "B"⟩])])
        (roundPopped [(J.str "A", [⟨2, [], true, .str "A"⟩]),
          (J.str "B", [⟨5, [], true, .str "B"⟩])]), e.time = 8) ∧
    roundMax [(J.str "A", [⟨2, [], true, .str "A"⟩]),
      (J.str "B", [⟨5, [], true, .str "B"⟩])] = 5 := by
  have h := c4_lockstep_round
    [(J.str "A", [⟨2, [], true, .str "A"⟩]),
     (J.str "B", [⟨5, [], true, .str "B"⟩])] 8 (by decide)
  refine ⟨h.1, h.2.1, ?_⟩
  rfl

/-- Witness for C5: a 1-second wait in a 3-second round. -/
theorem c5_wait_extension_warning_witness :
    actionEvents 8 3 ⟨1, [], true, .str "A"⟩ =
      ⟨8, .WARNING, none, some (.warnShortWait (.str "A")), none⟩ ::
      ⟨8, .WAIT, some (.str "A"), some (.waitText 1), none⟩ ::
      List.map (fun c => ⟨8, .COMMAND, some c.target, none, some c.command⟩)
        ([] : List Cmd) ∧
    List.countP (fun e => e.type == EvType.WARNING)
      (actionEvents 8 3 ⟨1, [], true, .str "A"⟩) = 1 :=
  c5_wait_extension_warning 8 3 ⟨1, [], true, .str "A"⟩ rfl (by norm_num)

/-! ## Termination of the traversal (C10) -/

theorem nfo_ok {α : Type} {a : α} :
    (Except.ok a : Except TErr α) ≠ .error .fuelOut := by
  intro h; cases h

theorem nfo_exn {α : Type} {e : PExn} :
    (Except.error (.exn e) : Except TErr α) ≠ .error .fuelOut := by
  intro h; cases h

theorem nfo_liftE {α : Type} {x : Except PExn α} :
    liftE x ≠ .error .fuelOut := by
  cases x with
  | ok a => exact nfo_ok
  | error e => exact nfo_exn

theorem nfo_bind {α β : Type} {x : Except TErr α} {g : α → Except TErr β}
    (hx : x ≠ .error .fuelOut) (hg : ∀ a, g a ≠ .error .fuelOut) :
    (x >>= g) ≠ .error .fuelOut := by
  cases x with
  | error e =>
    simp only [except_error_bind]
    intro hc
    injection hc with h2
    exact hx (by rw [h2])
  | ok a => simp only [except_ok_bind]; exact hg a

theorem nfo_iterTrav
    {tr : ℚ × ℚ × ℚ → List (J × ℚ) →
      Except TErr (List Action × (ℚ × ℚ × ℚ) × List (J × ℚ))}
    (h : ∀ p v, tr p v ≠ .error .fuelOut) :
    ∀ (k : Nat) (pos : ℚ × ℚ × ℚ) (vars : List (J × ℚ)),
      iterTrav tr k pos vars ≠ .error .fuelOut := by
  intro k
  induction k with
  | zero =>
    intro pos vars
    exact nfo_ok
  | succ n ih =>
    intro pos vars
    show iterTrav tr (Nat.succ n) pos vars ≠ _
    rw [iterTrav]
    cases htr1 : tr pos vars with
    | error e =>
      simp only []
      intro hc
      rw [hc] at htr1
      exact h pos vars htr1
    | ok r =>
      obtain ⟨a1, pos1, vars1⟩ := r
      simp only []
      cases hit : iterTrav tr n pos1 vars1 with
      | error e =>
        simp only []
        intro hc
        rw [hc] at hit
        exact ih pos1 vars1 hit
      | ok r2 =>
        obtain ⟨a2, pos2, vars2⟩ := r2
        simp only []
        exact nfo_ok

theorem lookup_mem {l : List (String × J)} {s : String} {v : J}
    (h : List.lookup s l = some v) : (s, v) ∈ l := by
  induction l with
  | nil => cases h
  | cons p r ih =>
    obtain ⟨k, b⟩ := p
    simp only [List.lookup] at h
    cases hk : (s == k) with
    | true =>
      rw [hk] at h
      simp only [] at h
      injection h with hv
      rw [← hv, eq_of_beq hk]
      exact List.mem_cons_self _ _
    | false =>
      rw [hk] at h
      simp only [] at h
      exact List.mem_cons_of_mem _ (ih h)

theorem lookupBlockId_mem {bl : List (String × J)} {bid bj : J}
    (h : lookupBlockId bl bid = .ok (some bj)) :
    ∃ s, bid = J.str s ∧ (s, bj) ∈ bl := by
  cases bid with
  | str s =>
    refine ⟨s, rfl, ?_⟩
    simp only [lookupBlockId, lookupLast] at h
    injection h with h1
    exact List.mem_reverse.mp (lookup_mem h1)
  | null => simp [lookupBlockId] at h
  | bool b => simp [lookupBlockId] at h
  | num q => simp [lookupBlockId] at h
  | arr a => simp [lookupBlockId] at h
  | obj o => simp [lookupBlockId] at h

theorem traverse_falsy {sn : J} {bl : List (String × J)}
    {procs : List (J × ProcDef)} {fuel : Nat} {bid : J}
    (h : bid.truthy = false) :
    ∀ (pos : ℚ × ℚ × ℚ) (vars args : List (J × ℚ)),
      traverse sn bl procs fuel bid pos vars args = .ok ([], pos, vars) := by
  intro pos vars args
  cases fuel with
  | zero => rw [traverse]; simp [h]
  | succ f => rw [traverse]; simp [h]

theorem traverse_lookup_error {sn : J} {bl : List (String × J)}
    {procs : List (J × ProcDef)} {f : Nat} {bid : J} {pos : ℚ × ℚ × ℚ}
    {vars args : List (J × ℚ)} {e : PExn}
    (hb : bid.truthy = true) (h : lookupBlockId bl bid = .error e) :
    traverse sn bl procs (f + 1) bid pos vars args = .error (.exn e) := by
  show traverse sn bl procs (Nat.succ f) bid pos vars args = _
  rw [traverse]
  simp [hb, h, liftE]

theorem traverse_lookup_none {sn : J} {bl : List (String × J)}
    {procs : List (J × ProcDef)} {f : Nat} {bid : J} {pos : ℚ × ℚ × ℚ}
    {vars args : List (J × ℚ)}
    (hb : bid.truthy = true) (h : lookupBlockId bl bid = .ok none) :
    traverse sn bl procs (f + 1) bid pos vars args = .ok ([], pos, vars) := by
  show traverse sn bl procs (Nat.succ f) bid pos vars args = _
  rw [traverse]
  simp [hb, h, liftE]

theorem traverse_bj_falsy {sn : J} {bl : List (String × J)}
    {procs : List (J × ProcDef)} {f : Nat} {bid bj : J} {pos : ℚ × ℚ × ℚ}
    {vars args : List (J × ℚ)}
    (hb : bid.truthy = true) (h : lookupBlockId bl bid = .ok (some bj))
    (hbj : bj.truthy = false) :
    traverse sn bl procs (f + 1) bid pos vars args = .ok ([], pos, vars) := by
  show traverse sn bl procs (Nat.succ f) bid pos vars args = _
  rw [traverse]
  simp [hb, h, liftE, hbj]

theorem traverse_notobj {sn : J} {bl : List (String × J)}
    {procs : List (J × ProcDef)} {f : Nat} {bid bj : J} {pos : ℚ × ℚ × ℚ}
    {vars args : List (J × ℚ)}
    (hb : bid.truthy = true) (h : lookupBlockId bl bid = .ok (some bj))
    (hbj : bj.truthy = true) (hno : ∀ o', bj ≠ J.obj o') :
    traverse sn bl procs (f + 1) bid pos vars args =
      .error (.exn .attrErr) := by
  show traverse sn bl procs (Nat.succ f) bid pos vars args = _
  rw [traverse]
  cases bj with
  | obj o => exact absurd rfl (hno o)
  | null => simp [hb, h, liftE, hbj]
  | bool b => simp [hb, h, liftE, hbj]
  | num q => simp [hb, h, liftE, hbj]
  | str t => simp [hb, h, liftE, hbj]
  | arr a => simp [hb, h, liftE, hbj]

set_option maxHeartbeats 2000000 in
theorem traverse_obj {sn : J} {bl : List (String × J)}
    {procs : List (J × ProcDef)} {f : Nat} {bid : J} {o : List (String × J)}
    {pos : ℚ × ℚ × ℚ} {vars args : List (J × ℚ)}
    (hb : bid.truthy = true)
    (hlk : lookupBlockId bl bid = .ok (some (J.obj o)))
    (hbj : (J.obj o).truthy = true) :
    traverse sn bl procs (f + 1) bid pos vars args =
      match stepOf (traverse sn bl procs f) sn bl procs o pos vars args with
      | .error e => .error e
      | .ok (acts, pos', vars') =>
        match traverse sn bl procs f ((lookupLast o "next").getD .null)
            pos' vars' args with
        | .error e => .error e
        | .ok (racts, pos'', vars'') => .ok (acts ++ racts, pos'', vars'') := by
  show traverse sn bl procs (Nat.succ f) bid pos vars args = _
  rw [traverse, hlk]
  simp only [hb]
  simp only [Bool.not_true]
  simp only [Bool.false_eq_true]
  simp only [if_false]
  simp only [liftE_ok]
  simp only [hbj]
  simp only [Bool.not_true]
  simp only [Bool.false_eq_true]
  simp only [if_false]
  rfl

theorem nfo_stepOf (rank : J → ℕ) (s : String)
    (tr : J → ℚ × ℚ × ℚ → List (J × ℚ) → List (J × ℚ) →
      Except TErr (List Action × (ℚ × ℚ × ℚ) × List (J × ℚ)))
    (sn : J) (bl : List (String × J)) (procs : List (J × ProcDef))
    (o : List (String × J)) (pos : ℚ × ℚ × ℚ) (vars args : List (J × ℚ))
    (hedge : edgeOK rank procs (s, J.obj o) = true)
    (htr : ∀ bid p v a, (bid.truthy = true → rank bid < rank (J.str s)) →
      tr bid p v a ≠ .error .fuelOut) :
    stepOf tr sn bl procs o pos vars args ≠ .error .fuelOut := by
  simp only [edgeOK] at hedge
  rw [Bool.and_eq_true, Bool.and_eq_true] at hedge
  obtain ⟨⟨-, hsub⟩, hproc⟩ := hedge
  simp only [stepOf]
  generalize hoc : (lookupLast o "opcode").getD (J.str "") = opc
  rw [hoc] at hsub hproc
  generalize hinp : (lookupLast o "inputs").getD (J.obj []) = inp
  rw [hinp] at hsub
  by_cases h1 : (opc.eqStr "data_setvariableto" ||
      opc.eqStr "data_changevariableby") = true
  · rw [if_pos h1]
    repeat first
      | exact nfo_ok
      | exact nfo_exn
      | exact nfo_liftE
      | refine nfo_bind ?_ ?_
      | split
      | intro a
  · rw [if_neg h1]
    by_cases h2 : opc.eqStr "procedures_call" = true
    · -- procedures_call
      rw [if_pos h2]
      rw [if_pos h2] at hproc
      cases hm : getAttrD (J.obj o) "mutation" (.obj []) with
      | error e =>
        simp only [hm, liftE_error, except_error_bind]; exact nfo_exn
      | ok mutation =>
        simp only [hm] at hproc
        simp only [hm, liftE_ok, except_ok_bind]
        cases hpo : getAttrOpt mutation "proccode" with
        | error e =>
          simp only [hpo, liftE_error, except_error_bind]; exact nfo_exn
        | ok proccodeO =>
          simp only [hpo] at hproc
          simp only [hpo, liftE_ok, except_ok_bind]
          cases hpl : procLookup procs (proccodeO.getD .null) with
          | error e =>
            simp only [hpl, liftE_error, except_error_bind]; exact nfo_exn
          | ok pd =>
            simp only [hpl] at hproc
            simp only [hpl, liftE_ok, except_ok_bind]
            cases pd with
            | none => exact nfo_ok
            | some defn =>
              simp only [] at hproc
              refine nfo_bind nfo_liftE ?_; intro aidsJ
              refine nfo_bind nfo_liftE ?_; intro aids
              refine nfo_bind nfo_liftE ?_; intro aidList
              refine nfo_bind nfo_liftE ?_; intro newArgs
              apply htr
              intro htru
              rw [Bool.or_eq_true] at hproc
              rcases hproc with hf | hlt
              · rw [htru] at hf; simp at hf
              · exact of_decide_eq_true hlt
    · rw [if_neg h2]
      by_cases h3 : (opc.eqStr "motion_turnright" ||
          opc.eqStr "motion_turnleft") = true
      · rw [if_pos h3]
        repeat first
          | exact nfo_ok
          | exact nfo_exn
          | exact nfo_liftE
          | refine nfo_bind ?_ ?_
          | split
          | intro a
      · rw [if_neg h3]
        by_cases h4 : opc.eqStr "event_broadcast" = true
        · rw [if_pos h4]
          refine nfo_bind nfo_liftE ?_; intro slot
          refine nfo_bind nfo_liftE ?_; intro msgJ
          cases msgJ with
          | str message =>
            simp only []
            split
            · generalize pySplitWs message.toLower = parts
              rcases parts with - | ⟨p1, - | ⟨p2, - | ⟨p3, rest⟩⟩⟩ <;>
                (repeat first
                  | split
                  | exact nfo_ok)
            · exact nfo_ok
          | null => exact nfo_exn
          | bool b => exact nfo_exn
          | num q => exact nfo_exn
          | arr l => exact nfo_exn
          | obj ob => exact nfo_exn
        · rw [if_neg h4]
          by_cases h5 : (opc.eqStr "motion_gotoxy" ||
              opc.eqStr "motion_movesteps") = true
          · rw [if_pos h5]
            repeat first
              | exact nfo_ok
              | exact nfo_exn
              | exact nfo_liftE
              | refine nfo_bind ?_ ?_
              | split
              | intro a
          · rw [if_neg h5]
            by_cases h6 : opc.eqStr "control_wait" = true
            · rw [if_pos h6]
              repeat first
                | exact nfo_ok
                | exact nfo_exn
                | exact nfo_liftE
                | refine nfo_bind ?_ ?_
                | split
                | intro a
            · rw [if_neg h6]
              by_cases h7 : (opc.eqStr "looks_setsizeto" ||
                  opc.eqStr "looks_changesizeby") = true
              · rw [if_pos h7]
                repeat first
                  | exact nfo_ok
                  | exact nfo_exn
                  | exact nfo_liftE
                  | refine nfo_bind ?_ ?_
                  | split
                  | intro a
              · rw [if_neg h7]
                by_cases h8 : opc.eqStr "control_repeat" = true
                · -- control_repeat
                  rw [if_pos h8]
                  rw [h8] at hsub
                  simp only [Bool.true_or, eq_self_iff_true, if_true] at hsub
                  refine nfo_bind nfo_liftE ?_; intro slot
                  refine nfo_bind nfo_liftE ?_; intro timesQ
                  cases hso : getAttrOpt inp "SUBSTACK" with
                  | error e =>
                    simp only [hso, liftE_error, except_error_bind]
                    exact nfo_exn
                  | ok so =>
                    simp only [hso] at hsub
                    simp only [hso, liftE_ok, except_ok_bind]
                    cases hsj : pyIndex (so.getD (.arr [.null, .null])) 1 with
                    | error e =>
                      simp only [hsj, liftE_error, except_error_bind]
                      exact nfo_exn
                    | ok subJ =>
                      simp only [hsj] at hsub
                      simp only [hsj, liftE_ok, except_ok_bind]
                      split
                      · rename_i hcond
                        apply nfo_iterTrav
                        intro p v
                        apply htr
                        intro _
                        rw [Bool.or_eq_true] at hsub
                        rcases hsub with hf | hlt
                        · rw [hcond.2] at hf; simp at hf
                        · exact of_decide_eq_true hlt
                      · exact nfo_ok
                · rw [if_neg h8]
                  by_cases h9 : opc.eqStr "control_forever" = true
                  · -- control_forever
                    rw [if_pos h9]
                    rw [h9] at hsub
                    simp only [Bool.or_true, eq_self_iff_true, if_true] at hsub
                    cases hso : getAttrOpt inp "SUBSTACK" with
                    | error e =>
                      simp only [hso, liftE_error, except_error_bind]
                      exact nfo_exn
                    | ok so =>
                      simp only [hso] at hsub
                      simp only [hso, liftE_ok, except_ok_bind]
                      cases hsj : pyIndex (so.getD (.arr [.null, .null]))
                          1 with
                      | error e =>
                        simp only [hsj, liftE_error, except_error_bind]
                        exact nfo_exn
                      | ok subJ =>
                        simp only [hsj] at hsub
                        simp only [hsj, liftE_ok, except_ok_bind]
                        split
                        · rename_i hcond
                          apply nfo_iterTrav
                          intro p v
                          apply htr
                          intro _
                          rw [Bool.or_eq_true] at hsub
                          rcases hsub with hf | hlt
                          · rw [hcond] at hf; simp at hf
                          · exact of_decide_eq_true hlt
                        · exact nfo_ok
                  · rw [if_neg h9]
                    exact nfo_ok

theorem traverse_no_fuelOut (rank : J → ℕ) (sn : J) (bl : List (String × J))
    (procs : List (J × ProcDef))
    (hrank : ∀ p ∈ bl, edgeOK rank procs p = true) :
    ∀ (fuel : Nat) (bid : J) (pos : ℚ × ℚ × ℚ) (vars args : List (J × ℚ)),
      rank bid < fuel →
      traverse sn bl procs fuel bid pos vars args ≠ .error .fuelOut := by
  intro fuel
  induction fuel with
  | zero =>
    intro bid pos vars args h
    exact absurd h (Nat.not_lt_zero _)
  | succ f ih =>
    intro bid pos vars args hfb
    cases hb : bid.truthy with
    | false =>
      rw [traverse_falsy hb pos vars args]
      exact nfo_ok
    | true =>
      cases hlkE : lookupBlockId bl bid with
      | error e =>
        rw [traverse_lookup_error hb hlkE]
        exact nfo_exn
      | ok opt =>
        cases opt with
        | none =>
          rw [traverse_lookup_none hb hlkE]
          exact nfo_ok
        | some bj =>
          cases hbj : bj.truthy with
          | false =>
            rw [traverse_bj_falsy hb hlkE hbj]
            exact nfo_ok
          | true =>
            cases bj with
            | null =>
              rw [traverse_notobj hb hlkE hbj (fun _ h => by cases h)]
              exact nfo_exn
            | bool b =>
              rw [traverse_notobj hb hlkE hbj (fun _ h => by cases h)]
              exact nfo_exn
            | num q =>
              rw [traverse_notobj hb hlkE hbj (fun _ h => by cases h)]
              exact nfo_exn
            | str t =>
              rw [traverse_notobj hb hlkE hbj (fun _ h => by cases h)]
              exact nfo_exn
            | arr a =>
              rw [traverse_notobj hb hlkE hbj (fun _ h => by cases h)]
              exact nfo_exn
            | obj o =>
              obtain ⟨s, hbid, hmem⟩ := lookupBlockId_mem hlkE
              subst hbid
              have hedge := hrank (s, J.obj o) hmem
              have hnextOK : (!((lookupLast o "next").getD .null).truthy ||
                  decide (rank ((lookupLast o "next").getD .null) <
                    rank (J.str s))) = true := by
                have h2 := hedge
                simp only [edgeOK] at h2
                rw [Bool.and_eq_true, Bool.and_eq_true] at h2
                exact h2.1.1
              have hle : rank (J.str s) ≤ f := Nat.lt_succ_iff.mp hfb
              have htrfun : ∀ bid' p v a,
                  (bid'.truthy = true → rank bid' < rank (J.str s)) →
                  traverse sn bl procs f bid' p v a ≠ .error .fuelOut := by
                intro bid' p v a hlt
                cases hbt : bid'.truthy with
                | false =>
                  rw [traverse_falsy hbt p v a]
                  exact nfo_ok
                | true =>
                  exact ih bid' p v a
                    (lt_of_lt_of_le (hlt hbt) hle)
              have hstep := nfo_stepOf rank s (traverse sn bl procs f) sn bl
                procs o pos vars args hedge htrfun
              rw [traverse_obj hb hlkE hbj]
              cases hso2 : stepOf (traverse sn bl procs f) sn bl procs o pos
                  vars args with
              | error e =>
                simp only []
                intro hc
                rw [hc] at hso2
                exact hstep hso2
              | ok r =>
                obtain ⟨acts, pos', vars'⟩ := r
                simp only []
                have hnext : traverse sn bl procs f
                    ((lookupLast o "next").getD .null) pos' vars' args ≠
                    .error .fuelOut := by
                  cases hnt : ((lookupLast o "next").getD .null).truthy with
                  | false =>
                    rw [traverse_falsy hnt pos' vars' args]
                    exact nfo_ok
                  | true =>
                    apply ih
                    rw [hnt] at hnextOK
                    simp only [Bool.not_true, Bool.false_or] at hnextOK
                    exact lt_of_lt_of_le (of_decide_eq_true hnextOK) hle
                cases hnx2 : traverse sn bl procs f
                    ((lookupLast o "next").getD .null) pos' vars' args with
                | error e =>
                  simp only []
                  intro hc
                  rw [hc] at hnx2
                  exact hnext hnx2
                | ok r2 =>
                  obtain ⟨racts, pos'', vars''⟩ := r2
                  simp only []
                  exact nfo_ok

theorem traverse_forever {sn : J} {bl : List (String × J)}
    {procs : List (J × ProcDef)} {f : Nat} {bid : J} {o : List (String × J)}
    {inputsJ : J} {so : Option J} {subJ : J} {pos : ℚ × ℚ × ℚ}
    {vars args : List (J × ℚ)}
    (hb : bid.truthy = true)
    (hlk : lookupBlockId bl bid = .ok (some (J.obj o)))
    (hbj : (J.obj o).truthy = true)
    (hop : (lookupLast o "opcode").getD (.str "") = .str "control_forever")
    (hin : (lookupLast o "inputs").getD (.obj []) = inputsJ)
    (hso : getAttrOpt inputsJ "SUBSTACK" = .ok so)
    (hsj : pyIndex (so.getD (.arr [.null, .null])) 1 = .ok subJ)
    (hsub : subJ.truthy = true)
    (hnx : ((lookupLast o "next").getD .null).truthy = false) :
    traverse sn bl procs (f + 1) bid pos vars args =
      iterTrav (fun p v => traverse sn bl procs f subJ p v args)
        10 pos vars := by
  rw [traverse_obj hb hlk hbj]
  have hstep : stepOf (traverse sn bl procs f) sn bl procs o pos vars args =
      iterTrav (fun p v => traverse sn bl procs f subJ p v args)
        10 pos vars := by
    simp only [stepOf, hop, hin]
    rw [if_neg (by decide), if_neg (by decide), if_neg (by decide),
      if_neg (by decide), if_neg (by decide), if_neg (by decide),
      if_neg (by decide), if_neg (by decide), if_pos (by decide)]
    rw [hso]
    simp only [liftE_ok, except_ok_bind]
    rw [hsj]
    simp only [liftE_ok, except_ok_bind]
    rw [if_pos hsub]
  rw [hstep]
  cases hit : iterTrav (fun p v => traverse sn bl procs f subJ p v args)
      10 pos vars with
  | error e => simp only []
  | ok r =>
    obtain ⟨acts, pos', vars'⟩ := r
    simp only [traverse_falsy hnx, List.append_nil]

/--
C10: a `control_forever` block with a truthy (non-null) substack entry is
unrolled exactly 10 iterations of its substack's traversal — the fixed cap of
`for _ in range(10)` — rather than run indefinitely; and under the
precondition that every edge of the block graph (next links, substack
entries, resolvable procedure-call bodies) strictly decreases some rank
function — i.e. next-chains are acyclic and procedure calls are
non-recursive — the traversal of any actor runs to completion for any
sufficient fuel budget: it never exhausts its fuel, the embedding's stand-in
for non-termination, and so returns a finite action list or a Python
exception.
-/
theorem c10_forever_cap_terminates :
    (∀ (sn : J) (bl : List (String × J)) (procs : List (J × ProcDef))
        (f : Nat) (bid : J) (o : List (String × J)) (inputsJ : J)
        (so : Option J) (subJ : J) (pos : ℚ × ℚ × ℚ)
        (vars args : List (J × ℚ)),
        bid.truthy = true →
        lookupBlockId bl bid = .ok (some (J.obj o)) →
        (J.obj o).truthy = true →
        (lookupLast o "opcode").getD (.str "") = .str "control_forever" →
        (lookupLast o "inputs").getD (.obj []) = inputsJ →
        getAttrOpt inputsJ "SUBSTACK" = .ok so →
        pyIndex (so.getD (.arr [.null, .null])) 1 = .ok subJ →
        subJ.truthy = true →
        ((lookupLast o "next").getD .null).truthy = false →
        traverse sn bl procs (f + 1) bid pos vars args =
          iterTrav (fun p v => traverse sn bl procs f subJ p v args)
            10 pos vars) ∧
    (∀ (rank : J → ℕ) (sn : J) (bl : List (String × J))
        (procs : List (J × ProcDef)) (fuel : Nat) (bid : J)
        (pos : ℚ × ℚ × ℚ) (vars args : List (J × ℚ)),
        (∀ p ∈ bl, edgeOK rank procs p = true) →
        rank bid < fuel →
        traverse sn bl procs fuel bid pos vars args ≠ .error .fuelOut) :=
  ⟨fun _ _ _ _ _ _ _ _ _ _ _ _ hb hlk hbj hop hin hso hsj hsub hnx =>
      traverse_forever hb hlk hbj hop hin hso hsj hsub hnx,
    fun rank sn bl procs fuel bid pos vars args hrank hlt =>
      traverse_no_fuelOut rank sn bl procs hrank fuel bid pos vars args hlt⟩

/-- Witness for C10 at the concrete forever-loop block table. -/
theorem c10_forever_cap_terminates_witness :
    traverse (.str "A") foreverBlocks [] 2 (.str "loop") (0, 0, 80) [] [] =
      iterTrav
        (fun p v =>
          traverse (.str "A") foreverBlocks [] 1 (.str "body") p v [])
        10 (0, 0, 80) [] ∧
    traverse (.str "A") foreverBlocks [] 2 (.str "loop") (0, 0, 80) [] [] ≠
      .error .fuelOut :=
  ⟨c10_forever_cap_terminates.1 (.str "A") foreverBlocks [] 1 (.str "loop")
      [("opcode", .str "control_forever"),
        ("inputs", .obj [("SUBSTACK", .arr [.num 2, .str "body"])]),
        ("next", .null)]
      (.obj [("SUBSTACK", .arr [.num 2, .str "body"])])
      (some (.arr [.num 2, .str "body"])) (.str "body") (0, 0, 80) [] []
      rfl rfl rfl rfl rfl rfl rfl rfl rfl,
    c10_forever_cap_terminates.2 foreverRank (.str "A") foreverBlocks [] 2
      (.str "loop") (0, 0, 80) [] [] (by decide) (by decide)⟩

end Tello
